import Mathlib

/-!
Shallow embedding of the ToDoList repository's domain/service layer
(src/todolist): entities `Task` and `Project` (core/task.py, core/project.py),
validation policy (core/config.py), the error taxonomy (core/exception.py),
the service operations (service/project_service.py, service/task_service.py)
including the auto-close overdue job, the volatile backend
(storage/in_memory.py) and the durable backend (storage/sqlalchemy_storage.py).

Calendar dates are modelled as integers (day numbers) with the usual order;
Python `date` comparison is exactly this order. Python strings are Lean
strings; `len` is `String.length`, `.strip()` is `pyStrip`, `.lower()` is
`pyLower`. In-place mutation of an entity followed by persistence is
modelled by explicit state passing; a raised exception is an `Except.error`
(or, where partial in-place mutation before the raise is itself the behaviour
under study, a returned pair of the mutated value and an optional error).
-/

namespace ToDoList

/-- Calendar dates as day numbers (Python `datetime.date` under its order). -/
abbrev Day := Int

/-- Error taxonomy from core/exception.py: the four subtypes of ToDoListError. -/
inductive TdlError where
  | validation (msg : String)
  | limitExceeded (msg : String)
  | duplicate (msg : String)
  | notFound (msg : String)
deriving Repr, DecidableEq

/-- Configuration values read at startup (core/config.py: MAX_PROJECTS,
MAX_TASKS_PER_PROJECT, from env with defaults 5 and 20). -/
structure Config where
  maxProjects : Nat := 5
  maxTasksPerProject : Nat := 20
deriving Repr, DecidableEq

/-- Python `str.strip()`: drop whitespace from both ends (list-based so that
concrete inputs compute). -/
def pyStrip (s : String) : String :=
  String.mk (((s.data.dropWhile Char.isWhitespace).reverse.dropWhile
    Char.isWhitespace).reverse)

/-- Python `str.lower()`: lowercase each character (list-based so that
concrete inputs compute). -/
def pyLower (s : String) : String :=
  String.mk (s.data.map Char.toLower)

/-- Config.validate_project_name: empty/whitespace-only or length > 30 fails. -/
def validateProjectName (name : String) : Except TdlError Unit :=
  if name = "" || (pyStrip name).length = 0 then
    .error (.validation "Project name cannot be empty")
  else if name.length > 30 then
    .error (.validation "Project name must not exceed 30 characters")
  else .ok ()

/-- Config.validate_project_description: length > 150 fails. -/
def validateProjectDescription (description : String) : Except TdlError Unit :=
  if description.length > 150 then
    .error (.validation "Description must not exceed 150 characters")
  else .ok ()

/-- Config.validate_task_title: empty/whitespace-only or length > 30 fails. -/
def validateTaskTitle (title : String) : Except TdlError Unit :=
  if title = "" || (pyStrip title).length = 0 then
    .error (.validation "Task title cannot be empty")
  else if title.length > 30 then
    .error (.validation "Task title must not exceed 30 characters")
  else .ok ()

/-- Config.validate_task_description: length > 150 fails. -/
def validateTaskDescription (description : String) : Except TdlError Unit :=
  if description.length > 150 then
    .error (.validation "Task description must not exceed 150 characters")
  else .ok ()

/-- The three-value status enum (core/task.py: Status literal). -/
def statusValues : List String := ["todo", "doing", "done"]

/-- A task (core/task.py). `closedAt` is absent (None) until the auto-close
job stamps it; Task.__init__ never sets it. -/
structure Task where
  id : Nat
  title : String
  description : String
  status : String
  deadline : Option Day
  createdAt : Day
  closedAt : Option Day
deriving Repr, DecidableEq

/-- Task.__init__ (core/task.py lines 12-40): Config validations, then the
redundant in-line re-checks, then the status-enum check; `created_at` is
stamped with the ambient current date (`today`). The `isinstance(deadline,
date)` check is type-level here. -/
def Task.init (today : Day) (id_ : Nat) (title : String) (description : String := "")
    (status : String := "todo") (deadline : Option Day := none) : Except TdlError Task := do
  validateTaskTitle title
  validateTaskDescription description
  if title = "" then
    throw (.validation "Title cannot be empty.")
  if title.length > 30 then
    throw (.validation "Title must not exceed 30 characters.")
  if description.length > 150 then
    throw (.validation "Description must not exceed 150 characters.")
  if !(statusValues.contains status) then
    throw (.validation s!"Invalid status: {status}")
  pure { id := id_, title := title, description := description, status := status,
         deadline := deadline, createdAt := today, closedAt := none }

/-- Task.change_status (core/task.py lines 42-50): validate the new status,
then assign it (the code assigns twice; the net effect is one assignment). -/
def Task.changeStatus (t : Task) (newStatus : String) : Except TdlError Task :=
  if !(statusValues.contains newStatus) then
    .error (.validation s!"Invalid new status: {newStatus}")
  else .ok { t with status := newStatus }

/-- Sequencing for in-place mutation with exceptions: if a previous step
raised, the value it left behind is kept and the error propagates. -/
def thenStep (r : Task × Option TdlError) (f : Task → Task × Option TdlError) :
    Task × Option TdlError :=
  match r with
  | (t, none) => f t
  | (t, some e) => (t, some e)

/-- Task.update_task, title step: validate, then assign `self.title`. -/
def stepTitle (title : Option String) (t : Task) : Task × Option TdlError :=
  match title with
  | none => (t, none)
  | some s =>
    match validateTaskTitle s with
    | .error e => (t, some e)
    | .ok _ => ({ t with title := s }, none)

/-- Task.update_task, description step: validate, then assign. -/
def stepDescription (description : Option String) (t : Task) : Task × Option TdlError :=
  match description with
  | none => (t, none)
  | some s =>
    match validateTaskDescription s with
    | .error e => (t, some e)
    | .ok _ => ({ t with description := s }, none)

/-- Task.update_task, status step: check the enum, then assign. -/
def stepStatus (status : Option String) (t : Task) : Task × Option TdlError :=
  match status with
  | none => (t, none)
  | some s =>
    if !(statusValues.contains s) then (t, some (.validation s!"Invalid status: {s}"))
    else ({ t with status := s }, none)

/-- Task.update_task, deadline step: the `isinstance` check is type-level;
a provided deadline is assigned. -/
def stepDeadline (deadline : Option Day) (t : Task) : Task × Option TdlError :=
  match deadline with
  | none => (t, none)
  | some d => ({ t with deadline := some d }, none)

/-- Task.update_task (core/task.py lines 52-87): each provided field is
validated and applied in order title, description, status, deadline; a
validation failure raises at that point, leaving the fields applied so far
mutated (Python mutates `self` in place). The result is the task object as
the caller observes it afterwards, paired with the raised error if any. -/
def Task.updateTask (t : Task) (title description status : Option String)
    (deadline : Option Day) : Task × Option TdlError :=
  thenStep (thenStep (thenStep (stepTitle title t) (stepDescription description))
    (stepStatus status)) (stepDeadline deadline)

/-- A project (core/project.py): scalar fields and the ordered task list. -/
structure Project where
  id : Nat
  name : String
  description : String
  createdAt : Day
  tasks : List Task
deriving Repr, DecidableEq

/-- Project.__init__ (core/project.py lines 24-34): validations, empty task
list, `created_at` stamped with the ambient current date. -/
def Project.init (today : Day) (id_ : Nat) (name : String) (description : String := "") :
    Except TdlError Project := do
  validateProjectName name
  validateProjectDescription description
  pure { id := id_, name := name, description := description,
         createdAt := today, tasks := [] }

/-- Project.get_task: first task with the given id, or None. -/
def Project.getTask (p : Project) (taskId : Nat) : Option Task :=
  p.tasks.find? (fun t => t.id == taskId)

/-- Project.list_all_tasks: a copy of the task list. -/
def Project.listAllTasks (p : Project) : List Task := p.tasks

/-- Project.get_task_count. -/
def Project.getTaskCount (p : Project) : Nat := p.tasks.length

/-- Project.get_tasks_by_status (core/project.py lines 86-91): fold over the
tasks appending each to `grouped[task.status]`; a status outside the three
keys is a KeyError, modelled as `none`. -/
def Project.getTasksByStatus (p : Project) : Option (List Task × List Task × List Task) :=
  p.tasks.foldl
    (fun acc t =>
      match acc with
      | none => none
      | some (td, dg, dn) =>
        if t.status = "todo" then some (td ++ [t], dg, dn)
        else if t.status = "doing" then some (td, dg ++ [t], dn)
        else if t.status = "done" then some (td, dg, dn ++ [t])
        else none)
    (some ([], [], []))

/-! ### The storage state seen through the repository contract

The service layer acts on a storage backend through the operations of
`ProjectRepository` (storage/repository.py): save_project, get_project,
delete_project, list_projects, get_next_project_id, get_next_task_id. The
state is the stored projects together with the id-generation state; the
volatile backend's id generation is a pair of incrementing counters
(storage/in_memory.py `_next_project_id`, `_next_task_id`). Projects are kept
in ascending-id order (list_projects sorts by id; ids are assigned
increasingly, so appending on creation keeps that order). -/

structure Storage where
  projects : List Project
  nextProjectId : Nat
  nextTaskId : Nat
deriving Repr, DecidableEq

/-- list_projects: all projects in ascending id order. -/
def Storage.listProjects (σ : Storage) : List Project := σ.projects

/-- get_project: the project with the id, or NotFoundError. -/
def Storage.getProject (σ : Storage) (projectId : Nat) : Except TdlError Project :=
  match σ.projects.find? (fun p => p.id == projectId) with
  | some p => .ok p
  | none => .error (.notFound s!"Project with id {projectId} not found.")

/-- save_project: upsert by id, replacing the stored project wholesale
(including its full task collection). -/
def Storage.saveProject (σ : Storage) (p : Project) : Storage :=
  if σ.projects.any (fun q => q.id == p.id) then
    { σ with projects := σ.projects.map (fun q => if q.id == p.id then p else q) }
  else
    { σ with projects := σ.projects ++ [p] }

/-- delete_project: remove the project (its tasks go with it), or NotFoundError. -/
def Storage.deleteProject (σ : Storage) (projectId : Nat) : Except TdlError Storage :=
  match σ.projects.find? (fun p => p.id == projectId) with
  | some _ => .ok { σ with projects := σ.projects.filter (fun p => !(p.id == projectId)) }
  | none => .error (.notFound s!"Project with id {projectId} not found.")

/-! ### ProjectService (service/project_service.py) -/

/-- ProjectService.create_project (lines 23-53): validate name and
description; limit check against list_projects; case-insensitive duplicate
name check; allocate an id; construct and persist the project. -/
def createProject (cfg : Config) (today : Day) (σ : Storage) (name : String)
    (description : String := "") : Except TdlError (Project × Storage) := do
  validateProjectName name
  validateProjectDescription description
  let existingProjects := σ.listProjects
  if existingProjects.length ≥ cfg.maxProjects then
    let m := cfg.maxProjects
    throw (.limitExceeded s!"Cannot create more projects. Maximum limit ({m}) reached.")
  if existingProjects.any (fun p => pyLower p.name == pyLower name) then
    throw (.duplicate "A project with this name already exists.")
  let projectId := σ.nextProjectId
  let σ := { σ with nextProjectId := σ.nextProjectId + 1 }
  let project ← Project.init today projectId name description
  pure (project, σ.saveProject project)

/-- Replace the first stored project carrying the given id (Python mutates
the fetched object in place; `save_project` then upserts it by id). -/
def setProjectFields (name description : String) (p : Project) : Project :=
  { p with name := name, description := description }

/-- ProjectService.update_project (lines 55-86): fetch; validate; duplicate
check excluding the project itself; mutate name/description; persist. -/
def updateProject (σ : Storage) (projectId : Nat) (name description : String) :
    Except TdlError (Project × Storage) := do
  let project ← σ.getProject projectId
  validateProjectName name
  validateProjectDescription description
  let existingProjects := σ.listProjects
  if existingProjects.any (fun p => p.id != projectId && pyLower p.name == pyLower name) then
    throw (.duplicate "Another project with this name already exists.")
  let project := setProjectFields name description project
  pure (project, σ.saveProject project)

/-- ProjectService.delete_project (lines 88-97): fetch (NotFoundError if
missing), then delete with cascade. -/
def serviceDeleteProject (σ : Storage) (projectId : Nat) : Except TdlError Storage := do
  let _ ← σ.getProject projectId
  σ.deleteProject projectId

/-! ### TaskService (service/task_service.py) -/

/-- TaskService.create_task (lines 25-77): fetch project; validate title and
description; status enum check; per-project limit check; case-insensitive
duplicate title check; allocate a task id; construct the task; append it to
the project; persist the project. -/
def createTask (cfg : Config) (today : Day) (σ : Storage) (projectId : Nat) (title : String)
    (description : String := "") (status : String := "todo") (deadline : Option Day := none) :
    Except TdlError (Task × Storage) := do
  let project ← σ.getProject projectId
  validateTaskTitle title
  validateTaskDescription description
  if !(statusValues.contains status) then
    throw (.validation s!"Invalid status: {status}")
  if project.getTaskCount ≥ cfg.maxTasksPerProject then
    let m := cfg.maxTasksPerProject
    throw (.limitExceeded s!"Cannot add more tasks. Maximum limit ({m}) reached.")
  let existingTasks := project.listAllTasks
  if existingTasks.any (fun t => pyLower t.title == pyLower title) then
    throw (.duplicate "A task with this title already exists in this project.")
  let taskId := σ.nextTaskId
  let σ := { σ with nextTaskId := σ.nextTaskId + 1 }
  let task ← Task.init today taskId title description status deadline
  let project := { project with tasks := project.tasks ++ [task] }
  pure (task, σ.saveProject project)

/-- Replace the first task carrying the given id (Python mutates the object
returned by `Project.get_task`, which is the first match in the list). -/
def setTaskFirst : List Task → Nat → Task → List Task
  | [], _, _ => []
  | t :: ts, taskId, task =>
    if t.id == taskId then task :: ts else t :: setTaskFirst ts taskId task

/-- TaskService.update_task, title block (lines 104-116): validate, check for
a case-insensitive duplicate among the other tasks, assign. -/
def svcStepTitle (project : Project) (taskId : Nat) (title : Option String)
    (task : Task) : Except TdlError Task :=
  match title with
  | none => pure task
  | some s => do
    validateTaskTitle s
    let existingTasks := project.listAllTasks
    if existingTasks.any (fun t => t.id != taskId && (pyLower t.title == pyLower s)) then
      throw (.duplicate "Another task with this title already exists in this project.")
    pure { task with title := s }

/-- TaskService.update_task, description block (lines 118-121). -/
def svcStepDescription (description : Option String) (task : Task) :
    Except TdlError Task :=
  match description with
  | none => pure task
  | some s => do
    validateTaskDescription s
    pure { task with description := s }

/-- TaskService.update_task, status block (lines 123-127). -/
def svcStepStatus (status : Option String) (task : Task) : Except TdlError Task :=
  match status with
  | none => pure task
  | some s =>
    if !(statusValues.contains s) then
      throw (.validation s!"Invalid status: {s}")
    else
      pure { task with status := s }

/-- TaskService.update_task, deadline block (lines 129-133); never fails. -/
def svcStepDeadline (deadline : Option Day) (task : Task) : Task :=
  match deadline with
  | none => task
  | some d => { task with deadline := some d }

/-- TaskService.update_task (lines 79-138), success path: fetch project and
task; per provided field, validate and apply (title additionally checked for
a case-insensitive duplicate among the other tasks); persist the project
once at the end. An error models the Python exception propagating. -/
def serviceUpdateTask (σ : Storage) (projectId taskId : Nat)
    (title description status : Option String) (deadline : Option Day) :
    Except TdlError (Task × Storage) := do
  let project ← σ.getProject projectId
  let some task := project.getTask taskId
    | throw (.notFound s!"Task with id {taskId} not found in project {projectId}.")
  let task ← svcStepTitle project taskId title task
  let task ← svcStepDescription description task
  let task ← svcStepStatus status task
  let task := svcStepDeadline deadline task
  let project := { project with tasks := setTaskFirst project.tasks taskId task }
  pure (task, σ.saveProject project)

/-- TaskService.change_task_status (lines 140-153): status enum check, then
delegate to update_task with only status provided. -/
def changeTaskStatus (σ : Storage) (projectId taskId : Nat) (newStatus : String) :
    Except TdlError (Task × Storage) :=
  if !(statusValues.contains newStatus) then
    .error (.validation s!"Invalid status: {newStatus}")
  else
    serviceUpdateTask σ projectId taskId none none (some newStatus) none

/-- TaskService.delete_task (lines 155-170): fetch project and task, remove
the task (first with the id), persist. -/
def serviceDeleteTask (σ : Storage) (projectId taskId : Nat) : Except TdlError Storage := do
  let project ← σ.getProject projectId
  let some _ := project.getTask taskId
    | throw (.notFound s!"Task with id {taskId} not found in project {projectId}.")
  let project := { project with tasks := project.tasks.eraseP (fun t => t.id == taskId) }
  pure (σ.saveProject project)

/-! ### The auto-close overdue job (service/task_service.py lines 205-234) -/

/-- The overdue test from the loop body:
`task.deadline is not None and task.deadline < today and task.status != "done"`. -/
def isOverdue (today : Day) (t : Task) : Bool :=
  match t.deadline with
  | none => false
  | some d => decide (d < today) && !(t.status == "done")

/-- The mutation applied to an overdue task: `status = "done"`,
`closed_at = today`. -/
def closeTask (today : Day) (t : Task) : Task :=
  { t with status := "done", closedAt := some today }

/-- The inner `for task in project.list_all_tasks()` loop: each overdue task
is closed in place and counted. Returns the task list as left after the loop
and the number of tasks updated in it. -/
def autocloseTasks (today : Day) : List Task → List Task × Nat
  | [] => ([], 0)
  | t :: ts =>
    let (ts', n) := autocloseTasks today ts
    if isOverdue today t then (closeTask today t :: ts', n + 1) else (t :: ts', n)

/-- TaskService.autoclose_overdue_tasks, outer loop: iterate over the
snapshot from list_projects, close overdue tasks of each project in place,
and call save_project once per project in which at least one task changed
(`changed` is true exactly when the project's update count is nonzero).
The third component records, in order, the ids of the projects passed to
save_project — the trace of persistence calls. -/
def autocloseGo (today : Day) : List Project → Storage → Nat → List Nat →
    Storage × Nat × List Nat
  | [], σ, updatedCount, saved => (σ, updatedCount, saved)
  | p :: rest, σ, updatedCount, saved =>
    let (ts, c) := autocloseTasks today p.tasks
    let p' := { p with tasks := ts }
    if c > 0 then
      autocloseGo today rest (σ.saveProject p') (updatedCount + c) (saved ++ [p'.id])
    else
      autocloseGo today rest σ (updatedCount + c) saved

/-- TaskService.autoclose_overdue_tasks (lines 205-234). Returns the storage
after the pass, the count of tasks transitioned, and the trace of
save_project calls (project ids, in order). -/
def autocloseOverdueTasks (σ : Storage) (today : Day) : Storage × Nat × List Nat :=
  autocloseGo today σ.listProjects σ 0 []

/-! ### The volatile backend's own operations (storage/in_memory.py)

`InMemoryStorage` holds `_projects` (dict keyed by id), `_next_project_id`
and `_next_task_id`; its state is the same `Storage` record. Its creation
methods differ from the service layer's: checks run in a different order and
ids are consumed only on success. -/

/-- Project.add_task (core/project.py lines 36-51): per-project limit check,
case-insensitive duplicate title check, append. -/
def Project.addTask (cfg : Config) (p : Project) (task : Task) : Except TdlError Project := do
  if p.tasks.length ≥ cfg.maxTasksPerProject then
    let m := cfg.maxTasksPerProject
    throw (.limitExceeded s!"Cannot add more tasks. Maximum limit ({m}) reached.")
  if p.tasks.any (fun t => pyLower t.title == pyLower task.title) then
    throw (.duplicate "A task with this title already exists in this project.")
  pure { p with tasks := p.tasks ++ [task] }

/-- InMemoryStorage.add_project (lines 16-37): limit check, duplicate check,
validations, then construct under `_next_project_id` and bump the counter. -/
def inMemAddProject (cfg : Config) (today : Day) (σ : Storage) (name : String)
    (description : String := "") : Except TdlError (Project × Storage) := do
  if σ.projects.length ≥ cfg.maxProjects then
    let m := cfg.maxProjects
    throw (.limitExceeded s!"Cannot create more projects. Maximum limit ({m}) reached.")
  if σ.projects.any (fun p => pyLower p.name == pyLower name) then
    throw (.duplicate "A project with this name already exists.")
  validateProjectName name
  validateProjectDescription description
  let projectId := σ.nextProjectId
  let project ← Project.init today projectId name description
  pure (project, { σ with projects := σ.projects ++ [project],
                          nextProjectId := σ.nextProjectId + 1 })

/-- InMemoryStorage.delete_project (lines 39-44): fetch (NotFoundError if
missing), then remove the dict entry — its tasks go with it. -/
def inMemDeleteProject (σ : Storage) (projectId : Nat) : Except TdlError Storage := do
  let _ ← σ.getProject projectId
  pure { σ with projects := σ.projects.filter (fun p => !(p.id == projectId)) }

/-- InMemoryStorage.add_task_to_project (lines 74-91): fetch the project,
construct the task under `_next_task_id`, `project.add_task`, then bump the
counter (only reached on success). -/
def inMemAddTaskToProject (cfg : Config) (today : Day) (σ : Storage) (projectId : Nat)
    (title : String) (description : String := "") (status : String := "todo")
    (deadline : Option Day := none) : Except TdlError (Task × Storage) := do
  let project ← σ.getProject projectId
  let taskId := σ.nextTaskId
  let task ← Task.init today taskId title description status deadline
  let project ← Project.addTask cfg project task
  let σ := { σ with projects := σ.projects.map (fun q => if q.id == projectId then project else q),
                    nextTaskId := σ.nextTaskId + 1 }
  pure (task, σ)

/-- InMemoryStorage.delete_task (lines 115-118) via Project.remove_task:
fetch project, remove the first task with the id (NotFoundError if absent). -/
def inMemDeleteTask (σ : Storage) (projectId taskId : Nat) : Except TdlError Storage := do
  let project ← σ.getProject projectId
  let some _ := project.getTask taskId
    | throw (.notFound s!"Task with id {taskId} not found.")
  let project := { project with tasks := project.tasks.eraseP (fun t => t.id == taskId) }
  pure { σ with projects := σ.projects.map (fun q => if q.id == projectId then project else q) }

/-- One client call against the volatile backend, for id-allocation runs. -/
inductive MemOp where
  | addProject (name description : String)
  | deleteProject (projectId : Nat)
  | addTask (projectId : Nat) (title description status : String) (deadline : Option Day)
  | deleteTask (projectId taskId : Nat)

/-- Step a `MemOp`: the state after the call (unchanged when it raises),
plus the project ids and the task ids allocated by the call (ids are
consumed only by successful creations). -/
def memStep (cfg : Config) (today : Day) (σ : Storage) :
    MemOp → Storage × List Nat × List Nat
  | .addProject name description =>
    match inMemAddProject cfg today σ name description with
    | .ok (p, σ') => (σ', [p.id], [])
    | .error _ => (σ, [], [])
  | .deleteProject projectId =>
    match inMemDeleteProject σ projectId with
    | .ok σ' => (σ', [], [])
    | .error _ => (σ, [], [])
  | .addTask projectId title description status deadline =>
    match inMemAddTaskToProject cfg today σ projectId title description status deadline with
    | .ok (t, σ') => (σ', [], [t.id])
    | .error _ => (σ, [], [])
  | .deleteTask projectId taskId =>
    match inMemDeleteTask σ projectId taskId with
    | .ok σ' => (σ', [], [])
    | .error _ => (σ, [], [])

/-- Run a sequence of calls, accumulating the allocated project and task ids
in allocation order. -/
def memRun (cfg : Config) (today : Day) : List MemOp → Storage → Storage × List Nat × List Nat
  | [], σ => (σ, [], [])
  | op :: ops, σ =>
    let (σ', ps, ts) := memStep cfg today σ op
    let (σ'', ps', ts') := memRun cfg today ops σ'
    (σ'', ps ++ ps', ts ++ ts')

/-! ### The durable backend (storage/sqlalchemy_storage.py)

Two tables (ProjectModel, TaskModel). `TaskModel` (lines 34-49) maps columns
id, title, description, status, deadline, created_at, project_id — and no
closed_at column, although migration 0001_add_closed_at_to_tasks.py adds one
to the `tasks` table. -/

structure ProjectRow where
  id : Nat
  name : String
  description : String
  createdAt : Day
deriving Repr, DecidableEq

structure TaskRow where
  id : Nat
  title : String
  description : String
  status : String
  deadline : Option Day
  createdAt : Day
  projectId : Nat
deriving Repr, DecidableEq

structure DB where
  projects : List ProjectRow
  tasks : List TaskRow
deriving Repr, DecidableEq

/-- The row written for a task by save_project: exactly the TaskModel
columns — the task's `closed_at`, when present, is dropped. -/
def taskToRow (projectId : Nat) (t : Task) : TaskRow :=
  { id := t.id, title := t.title, description := t.description, status := t.status,
    deadline := t.deadline, createdAt := t.createdAt, projectId := projectId }

/-- SqlAlchemyStorage.save_project (lines 60-85): upsert the project row,
clear the project's task rows (delete-orphan), and re-insert one row per
task of the passed project. -/
def sqlSaveProject (db : DB) (p : Project) : DB :=
  let row : ProjectRow :=
    { id := p.id, name := p.name, description := p.description, createdAt := p.createdAt }
  let projects :=
    if db.projects.any (fun r => r.id == p.id) then
      db.projects.map (fun r => if r.id == p.id then row else r)
    else
      db.projects ++ [row]
  { projects := projects,
    tasks := db.tasks.filter (fun t => !(t.projectId == p.id)) ++ p.tasks.map (taskToRow p.id) }

/-- SqlAlchemyStorage.get_project (lines 87-112): find the row, rebuild the
`Project` through its constructor, override `created_at` with the stored
value, then rebuild each task row through `Task.__init__` (which has no
closed_at parameter) and override its `created_at`. -/
def sqlGetProject (today : Day) (db : DB) (projectId : Nat) : Except TdlError Project := do
  let some r := db.projects.find? (fun r => r.id == projectId)
    | throw (.notFound s!"Project with id {projectId} not found.")
  let project ← Project.init today r.id r.name r.description
  let project := { project with createdAt := r.createdAt }
  let rows := db.tasks.filter (fun t => t.projectId == projectId)
  let tasks ← rows.mapM (fun tr => do
    let t ← Task.init today tr.id tr.title tr.description tr.status tr.deadline
    pure { t with createdAt := tr.createdAt })
  pure { project with tasks := tasks }

/-- SqlAlchemyStorage.delete_project (lines 114-121): delete the row; the
FK `ON DELETE CASCADE` removes the project's task rows. -/
def sqlDeleteProject (db : DB) (projectId : Nat) : Except TdlError DB := do
  let some _ := db.projects.find? (fun r => r.id == projectId)
    | throw (.notFound s!"Project with id {projectId} not found.")
  pure { projects := db.projects.filter (fun r => !(r.id == projectId)),
         tasks := db.tasks.filter (fun t => !(t.projectId == projectId)) }

/-- SqlAlchemyStorage.get_next_project_id (lines 154-158): `(max_id or 0) + 1`. -/
def sqlGetNextProjectId (db : DB) : Nat :=
  (db.projects.foldl (fun m r => max m r.id) 0) + 1

/-- SqlAlchemyStorage.get_next_task_id (lines 160-164): `(max_id or 0) + 1`. -/
def sqlGetNextTaskId (db : DB) : Nat :=
  (db.tasks.foldl (fun m r => max m r.id) 0) + 1

/-! ### Conformance to the repository protocol is duck-typed

Python checks no interface at class-definition time: a backend conforms to
`ProjectRepository` iff it defines each method of the protocol. The method
sets below are transcribed from the three files. -/

/-- The operations of ProjectRepository (storage/repository.py lines 15-41). -/
def projectRepositoryMethods : List String :=
  ["save_project", "get_project", "delete_project", "list_projects",
   "get_next_project_id", "get_next_task_id"]

/-- The methods defined by InMemoryStorage (storage/in_memory.py lines 8-118). -/
def inMemoryStorageMethods : List String :=
  ["add_project", "delete_project", "list_projects", "get_project",
   "update_project", "add_task_to_project", "get_task", "update_task", "delete_task"]

/-- The methods defined by SqlAlchemyStorage (storage/sqlalchemy_storage.py
lines 52-164). -/
def sqlAlchemyStorageMethods : List String :=
  ["save_project", "get_project", "delete_project", "list_projects",
   "get_next_project_id", "get_next_task_id"]

/-- The storage methods TaskService.create_task invokes (task_service.py
lines 25-77: get_project, get_next_task_id, save_project). -/
def createTaskStorageCalls : List String :=
  ["get_project", "get_next_task_id", "save_project"]


/-! ## Theorems -/

def OverdueP (today : Day) (t : Task) : Prop :=
  ∃ d, t.deadline = some d ∧ d < today ∧ t.status ≠ "done"

theorem isOverdue_iff (today : Day) (t : Task) :
    isOverdue today t = true ↔ OverdueP today t := by
  unfold isOverdue OverdueP
  cases h : t.deadline <;> simp [h]

/-- What the loop body does to one task. -/
def closeTaskStep (today : Day) (t : Task) : Task :=
  if isOverdue today t then closeTask today t else t

def closeProject (today : Day) (p : Project) : Project :=
  { p with tasks := (autocloseTasks today p.tasks).1 }

def overdueCount (today : Day) (p : Project) : Nat :=
  (p.tasks.filter (isOverdue today)).length

def hasOverdue (today : Day) (p : Project) : Bool :=
  p.tasks.any (isOverdue today)

theorem autocloseTasks_eq (today : Day) (ts : List Task) :
    autocloseTasks today ts =
      (ts.map (closeTaskStep today), (ts.filter (isOverdue today)).length) := by
  induction ts with
  | nil => rfl
  | cons t ts ih =>
    simp only [autocloseTasks, ih, List.map_cons, List.filter_cons]
    by_cases h : isOverdue today t = true <;> simp [closeTaskStep, h]

theorem hasOverdue_iff (today : Day) (p : Project) :
    hasOverdue today p = true ↔ 0 < overdueCount today p := by
  unfold hasOverdue overdueCount
  rw [List.any_eq_true, List.length_pos]
  constructor
  · rintro ⟨x, hx, hpx⟩ hnil
    rw [List.filter_eq_nil_iff] at hnil
    exact hnil x hx hpx
  · intro hne
    obtain ⟨x, hx⟩ := List.exists_mem_of_ne_nil _ hne
    have := List.mem_filter.mp hx
    exact ⟨x, this.1, this.2⟩

theorem closeProject_tasks (today : Day) (p : Project) :
    closeProject today p = { p with tasks := p.tasks.map (closeTaskStep today) } := by
  unfold closeProject
  rw [autocloseTasks_eq]

theorem closeProject_eq_self (today : Day) (p : Project)
    (h : overdueCount today p = 0) : closeProject today p = p := by
  rw [closeProject_tasks]
  unfold overdueCount at h
  rw [List.length_eq_zero, List.filter_eq_nil_iff] at h
  have hmap : p.tasks.map (closeTaskStep today) = p.tasks := by
    rw [List.map_congr_left (g := fun t => t)
      (fun t ht => by simp [closeTaskStep, h t ht])]
    exact List.map_id' p.tasks
  simp [hmap]

theorem closeProject_id (today : Day) (p : Project) :
    (closeProject today p).id = p.id := rfl

theorem map_replace_of_forall_ne (ps : List Project) (u : Project) (k : Nat)
    (h : ∀ q ∈ ps, q.id ≠ k) :
    ps.map (fun q => if q.id == k then u else q) = ps := by
  rw [List.map_congr_left (g := fun q => q) (fun q hq => by simp [h q hq])]
  exact List.map_id' ps

theorem map_replace_middle (l r : List Project) (p u : Project) (k : Nat)
    (hp : p.id = k) (hl : ∀ q ∈ l, q.id ≠ k) (hr : ∀ q ∈ r, q.id ≠ k) :
    (l ++ p :: r).map (fun q => if q.id == k then u else q) = l ++ u :: r := by
  rw [List.map_append, List.map_cons, map_replace_of_forall_ne l u k hl,
    map_replace_of_forall_ne r u k hr]
  simp [hp]

theorem autocloseGo_spec (today : Day) (todo : List Project) :
    ∀ (done : List Project) (npid ntid n : Nat) (ids : List Nat),
    ((done ++ todo).map Project.id).Nodup →
    autocloseGo today todo ⟨done ++ todo, npid, ntid⟩ n ids =
      (⟨done ++ todo.map (closeProject today), npid, ntid⟩,
       n + (todo.map (overdueCount today)).sum,
       ids ++ (todo.filter (hasOverdue today)).map Project.id) := by
  induction todo with
  | nil =>
    intro done npid ntid n ids _
    simp [autocloseGo]
  | cons p rest ih =>
    intro done npid ntid n ids hnodup
    have hmid : (p.id :: (done.map Project.id ++ rest.map Project.id)).Nodup := by
      rw [List.map_append, List.map_cons] at hnodup
      exact List.nodup_middle.mp hnodup
    rw [List.nodup_cons] at hmid
    have hdone : ∀ q ∈ done, q.id ≠ p.id := fun q hq he =>
      hmid.1 (List.mem_append_left _ (he ▸ List.mem_map_of_mem Project.id hq))
    have hrest : ∀ q ∈ rest, q.id ≠ p.id := fun q hq he =>
      hmid.1 (List.mem_append_right _ (he ▸ List.mem_map_of_mem Project.id hq))
    rw [autocloseGo, autocloseTasks_eq]
    dsimp only
    by_cases hc : 0 < (p.tasks.filter (isOverdue today)).length
    · rw [if_pos hc]
      have hclose : ({ p with tasks := p.tasks.map (closeTaskStep today) } : Project)
          = closeProject today p := (closeProject_tasks today p).symm
      rw [hclose]
      have hsave : Storage.saveProject ⟨done ++ p :: rest, npid, ntid⟩
          (closeProject today p) = ⟨done ++ closeProject today p :: rest, npid, ntid⟩ := by
        unfold Storage.saveProject
        have hany : ((done ++ p :: rest).any
            (fun q => q.id == (closeProject today p).id)) = true := by
          rw [List.any_eq_true]
          exact ⟨p, List.mem_append_right _ (List.mem_cons_self p rest),
            by simp [closeProject_id]⟩
        rw [if_pos hany]
        simp only [closeProject_id]
        rw [map_replace_middle done rest p (closeProject today p) p.id rfl hdone hrest]
      rw [hsave]
      have hnodup' : (((done ++ [closeProject today p]) ++ rest).map Project.id).Nodup := by
        have heq : ((done ++ [closeProject today p]) ++ rest).map Project.id
            = (done ++ p :: rest).map Project.id := by
          simp [closeProject_id]
        rw [heq]; exact hnodup
      have hstep := ih (done ++ [closeProject today p]) npid ntid
        (n + (p.tasks.filter (isOverdue today)).length)
        (ids ++ [p.id]) hnodup'
      rw [List.append_assoc, List.singleton_append] at hstep
      rw [hstep]
      have hhas : hasOverdue today p = true := (hasOverdue_iff today p).mpr hc
      simp only [List.map_cons, List.filter_cons, hhas, if_pos, List.sum_cons,
        List.append_assoc, List.singleton_append, overdueCount, closeProject_id,
        Nat.add_assoc]
    · rw [if_neg hc]
      have hc0 : overdueCount today p = 0 := by unfold overdueCount; omega
      have hclose : closeProject today p = p := closeProject_eq_self today p hc0
      have hsplit : done ++ p :: rest = (done ++ [p]) ++ rest := by
        rw [List.append_assoc, List.singleton_append]
      rw [hsplit, ih (done ++ [p]) npid ntid
        (n + (p.tasks.filter (isOverdue today)).length) ids (hsplit ▸ hnodup)]
      have hhas : hasOverdue today p = false := by
        cases hh : hasOverdue today p
        · rfl
        · exact absurd ((hasOverdue_iff today p).mp hh) (by omega)
      simp only [List.map_cons, List.filter_cons, hhas, List.sum_cons,
        Bool.false_eq_true, if_false, List.append_assoc, List.singleton_append,
        overdueCount, Nat.add_assoc, hclose]


theorem isOverdue_closeTaskStep (today : Day) (t : Task) :
    isOverdue today (closeTaskStep today t) = false := by
  unfold closeTaskStep
  by_cases h : isOverdue today t = true
  · simp only [h, if_true]
    unfold isOverdue closeTask
    cases t.deadline <;> simp
  · simp only [h, if_false]
    exact Bool.not_eq_true _ ▸ h

theorem autocloseOverdueTasks_run (σ : Storage) (today : Day)
    (hids : (σ.projects.map Project.id).Nodup) :
    autocloseOverdueTasks σ today =
      (⟨σ.projects.map (closeProject today), σ.nextProjectId, σ.nextTaskId⟩,
       (σ.projects.map (overdueCount today)).sum,
       (σ.projects.filter (hasOverdue today)).map Project.id) := by
  unfold autocloseOverdueTasks Storage.listProjects
  have h := autocloseGo_spec today σ.projects [] σ.nextProjectId σ.nextTaskId 0 []
    (by simpa using hids)
  simpa using h

/-- The task-level contract of the auto-close pass: an overdue task is set
to done and stamped with today; any other task is untouched. -/
def TaskClosedSpec (today : Day) (t u : Task) : Prop :=
  (OverdueP today t → u = { t with status := "done", closedAt := some today }) ∧
  (¬ OverdueP today t → u = t)

/-- What C1 asserts of one auto-close pass over storage at a date: the
id-generation state is untouched; the resulting projects correspond
pairwise (in order) to the stored ones, with identical scalar fields and
tasks transformed pointwise per `TaskClosedSpec`; the returned count is the
total number of overdue tasks; and the trace of save_project calls lists
exactly the projects with at least one overdue task, each once. -/
def AutocloseSpec (σ : Storage) (today : Day) : Prop :=
  let r := autocloseOverdueTasks σ today
  r.1.nextProjectId = σ.nextProjectId ∧
  r.1.nextTaskId = σ.nextTaskId ∧
  List.Forall₂ (fun q p =>
      q.id = p.id ∧ q.name = p.name ∧ q.description = p.description ∧
      q.createdAt = p.createdAt ∧
      List.Forall₂ (fun u t => TaskClosedSpec today t u) q.tasks p.tasks)
    r.1.projects σ.projects ∧
  r.2.1 = (σ.projects.map (fun p => p.tasks.countP (isOverdue today))).sum ∧
  r.2.2 = (σ.projects.filter (hasOverdue today)).map Project.id ∧
  r.2.2.Nodup

/-- Claim C1: one call of autoclose_overdue_tasks(today) closes (status
"done", closed_at = today) exactly the stored tasks whose deadline exists,
is strictly before today, and whose status is not already "done"; every
other task and all project scalar fields are untouched, the id counters are
untouched, the returned count is the total number of such transitions, and
save_project is called exactly once for each project with at least one such
task and never for any other project. -/
theorem autoclose_overdue_spec (σ : Storage) (today : Day)
    (hids : (σ.projects.map Project.id).Nodup) : AutocloseSpec σ today := by
  unfold AutocloseSpec
  rw [autocloseOverdueTasks_run σ today hids]
  dsimp only
  refine ⟨rfl, rfl, ?_, ?_, rfl, ?_⟩
  · rw [List.forall₂_map_left_iff, List.forall₂_same]
    intro p _
    rw [closeProject_tasks]
    refine ⟨rfl, rfl, rfl, rfl, ?_⟩
    rw [List.forall₂_map_left_iff, List.forall₂_same]
    intro t _
    constructor
    · intro hov
      have hb : isOverdue today t = true := (isOverdue_iff today t).mpr hov
      simp [closeTaskStep, hb, closeTask]
    · intro hov
      have hb : isOverdue today t = false := by
        cases hh : isOverdue today t
        · rfl
        · exact absurd ((isOverdue_iff today t).mp hh) hov
      simp [closeTaskStep, hb]
  · congr 1
    refine List.map_congr_left (fun p _ => ?_)
    rw [List.countP_eq_length_filter]
    rfl
  · have hsub : ((σ.projects.filter (hasOverdue today)).map Project.id).Sublist
        (σ.projects.map Project.id) :=
      (List.filter_sublist σ.projects).map Project.id
    exact hsub.nodup hids

/-- Claim C2: autoclose_overdue_tasks is idempotent for a fixed date D —
after one pass, a second pass with the same D returns 0, persists nothing,
and leaves the storage exactly as the first pass left it. -/
theorem autoclose_idempotent (σ : Storage) (D : Day)
    (hids : (σ.projects.map Project.id).Nodup) :
    autocloseOverdueTasks (autocloseOverdueTasks σ D).1 D
      = ((autocloseOverdueTasks σ D).1, 0, []) := by
  rw [autocloseOverdueTasks_run σ D hids]
  have hids1 : ((σ.projects.map (closeProject D)).map Project.id).Nodup := by
    rw [List.map_map]
    have : (Project.id ∘ closeProject D) = Project.id := by
      funext p; simp [closeProject_id]
    rw [this]; exact hids
  have hcount : ∀ q ∈ σ.projects.map (closeProject D), overdueCount D q = 0 := by
    intro q hq
    obtain ⟨p, _, rfl⟩ := List.mem_map.mp hq
    rw [closeProject_tasks]
    unfold overdueCount
    simp only []
    rw [List.length_eq_zero, List.filter_eq_nil_iff]
    intro t ht
    obtain ⟨t0, _, rfl⟩ := List.mem_map.mp ht
    simp [isOverdue_closeTaskStep]
  have hrun2 := autocloseOverdueTasks_run
    ⟨σ.projects.map (closeProject D), σ.nextProjectId, σ.nextTaskId⟩ D hids1
  rw [hrun2]
  have hmapid : (σ.projects.map (closeProject D)).map (closeProject D)
      = σ.projects.map (closeProject D) := by
    rw [List.map_congr_left (g := fun q => q)
      (fun q hq => closeProject_eq_self D q (hcount q hq))]
    exact List.map_id' _
  have hsum : ((σ.projects.map (closeProject D)).map (overdueCount D)).sum = 0 := by
    apply List.sum_eq_zero
    intro x hx
    obtain ⟨q, hq, rfl⟩ := List.mem_map.mp hx
    exact hcount q hq
  have hfil : (σ.projects.map (closeProject D)).filter (hasOverdue D) = [] := by
    rw [List.filter_eq_nil_iff]
    intro q hq
    have h0 := hcount q hq
    intro hb
    exact absurd ((hasOverdue_iff D q).mp hb) (by omega)
  rw [hmapid, hsum, hfil]
  simp

/-! ### Constructor and validation inversion -/

theorem projectInit_ok (today : Day) (id_ : Nat) (name description : String)
    (p : Project) (h : Project.init today id_ name description = .ok p) :
    p = { id := id_, name := name, description := description,
          createdAt := today, tasks := [] } ∧
    validateProjectName name = .ok () ∧ validateProjectDescription description = .ok () := by
  unfold Project.init at h
  simp only [bind, Except.bind] at h
  split at h
  · simp at h
  · split at h
    · simp at h
    · rename_i x1 v1 heq1 x2 v2 heq2
      simp only [pure, Except.pure, Except.ok.injEq] at h
      exact ⟨h.symm, by cases v1; exact heq1, by cases v2; exact heq2⟩

theorem validateTaskTitle_ok (title : String)
    (h : validateTaskTitle title = .ok ()) :
    (title = "") = False ∧ ((pyStrip title).length = 0) = False ∧
    (title.length > 30) = False := by
  unfold validateTaskTitle at h
  split at h
  · simp at h
  · split at h
    · simp at h
    · rename_i h1 h2
      simp only [decide_eq_true_eq, Bool.or_eq_true] at h1
      push_neg at h1
      exact ⟨eq_false h1.1, eq_false h1.2, eq_false h2⟩

theorem validateTaskDescription_ok (description : String)
    (h : validateTaskDescription description = .ok ()) :
    (description.length > 150) = False := by
  unfold validateTaskDescription at h
  split at h
  · simp at h
  · rename_i h1
    exact eq_false h1

theorem taskInit_ok (today : Day) (id_ : Nat) (title description status : String)
    (deadline : Option Day) (t : Task)
    (h : Task.init today id_ title description status deadline = .ok t) :
    t = { id := id_, title := title, description := description, status := status,
          deadline := deadline, createdAt := today, closedAt := none } ∧
    statusValues.contains status = true ∧
    validateTaskTitle title = .ok () ∧ validateTaskDescription description = .ok () := by
  unfold Task.init at h
  simp only [bind, Except.bind] at h
  split at h
  · simp at h
  · split at h
    · simp at h
    · rename_i x1 v1 heq1 x2 v2 heq2
      have hvt : validateTaskTitle title = .ok () := by cases v1; exact heq1
      have hvd : validateTaskDescription description = .ok () := by cases v2; exact heq2
      obtain ⟨ht1, ht2, ht3⟩ := validateTaskTitle_ok title hvt
      have hd1 := validateTaskDescription_ok description hvd
      simp only [ht1, ht3, hd1, if_false, pure, Except.pure] at h
      cases hc : statusValues.contains status
      · simp only [hc, Bool.not_false, if_true] at h
        simp at h
      · simp only [hc, Bool.not_true, Bool.false_eq_true, if_false,
          Except.ok.injEq] at h
        exact ⟨h.symm, rfl, hvt, hvd⟩

/-- C5 failing input: a description one character over the limit. -/
def longDescription : String := String.mk (List.replicate 151 'x')

set_option maxRecDepth 4000 in
/-- Claim C5 (code bug): Task.update_task is not atomic on validation
failure. Updating a task titled "A" with title "B" and a 151-character
description raises ValidationError for the description, yet the title has
already been mutated to "B". -/
theorem task_update_partial_mutation :
    (Task.updateTask ⟨1, "A", "", "todo", none, 0, none⟩
        (some "B") (some longDescription) none none).2
      = some (.validation "Task description must not exceed 150 characters") ∧
    (Task.updateTask ⟨1, "A", "", "todo", none, 0, none⟩
        (some "B") (some longDescription) none none).1.title = "B" ∧
    (⟨1, "A", "", "todo", none, 0, none⟩ : Task).title = "A" := by
  refine ⟨by decide, by decide, rfl⟩

/-- Claim C3 (code bug): the durable round-trip does not preserve closed_at.
Saving a valid project whose task carries closed_at = day 5 and reading it
back yields the same project except that the task comes back with no
closed_at — TaskModel maps no closed_at column although the repository
migration 0001_add_closed_at_to_tasks adds one. -/
theorem sql_roundtrip_drops_closed_at :
    sqlGetProject 0 (sqlSaveProject ⟨[], []⟩
        ⟨1, "P", "", 0, [⟨1, "T", "", "done", none, 0, some 5⟩]⟩) 1
      = .ok ⟨1, "P", "", 0, [⟨1, "T", "", "done", none, 0, none⟩]⟩ ∧
    (⟨1, "T", "", "done", none, 0, some 5⟩ : Task).closedAt = some 5 ∧
    (⟨1, "T", "", "done", none, 0, none⟩ : Task).closedAt = none := by
  refine ⟨by rfl, rfl, rfl⟩

/-- Claim C4 (code bug): InMemoryStorage does not provide every operation of
the ProjectRepository protocol. save_project, get_next_project_id and
get_next_task_id are in the protocol (and save_project and get_next_task_id
are invoked by TaskService.create_task) but are not among the methods
in_memory.py defines, while SqlAlchemyStorage defines all six. -/
theorem in_memory_not_conforming :
    "save_project" ∈ projectRepositoryMethods ∧
    "get_next_project_id" ∈ projectRepositoryMethods ∧
    "get_next_task_id" ∈ projectRepositoryMethods ∧
    "save_project" ∉ inMemoryStorageMethods ∧
    "get_next_project_id" ∉ inMemoryStorageMethods ∧
    "get_next_task_id" ∉ inMemoryStorageMethods ∧
    ¬ (∀ m ∈ projectRepositoryMethods, m ∈ inMemoryStorageMethods) ∧
    (∀ m ∈ projectRepositoryMethods, m ∈ sqlAlchemyStorageMethods) ∧
    "save_project" ∈ createTaskStorageCalls ∧
    "get_next_task_id" ∈ createTaskStorageCalls := by
  decide

/-! ### C6: the project-count limit; C8: id generation -/

/-- The storage a caller holds after a create call: the returned one on
success, the unchanged original when the call raised. -/
def storageAfter (σ : Storage) (r : Except TdlError (Project × Storage)) : Storage :=
  match r with
  | .ok (_, σ2) => σ2
  | .error _ => σ

/-- Claim C6: when the stored project count is at least MAX_PROJECTS,
create_project with any valid name and description fails with
LimitExceededError and the stored projects are unchanged. -/
theorem create_project_at_limit (cfg : Config) (today : Day) (σ : Storage)
    (name description : String)
    (hname : validateProjectName name = .ok ())
    (hdesc : validateProjectDescription description = .ok ())
    (hlim : σ.listProjects.length ≥ cfg.maxProjects) :
    (∃ msg, createProject cfg today σ name description
        = .error (.limitExceeded msg)) ∧
    storageAfter σ (createProject cfg today σ name description) = σ ∧
    (storageAfter σ (createProject cfg today σ name description)).projects
      = σ.projects := by
  have h : createProject cfg today σ name description
      = .error (.limitExceeded ("Cannot create more projects. Maximum limit ("
          ++ toString cfg.maxProjects ++ ") reached.")) := by
    simp only [createProject, hname, hdesc, bind, Except.bind]
    rw [if_pos hlim]
    rfl
  rw [h]
  exact ⟨⟨_, rfl⟩, rfl, rfl⟩

/-! C8: id generation. -/

theorem inMemAddProject_ok (cfg : Config) (today : Day) (σ : Storage)
    (name description : String) (p : Project) (σ2 : Storage)
    (h : inMemAddProject cfg today σ name description = .ok (p, σ2)) :
    p.id = σ.nextProjectId ∧
    σ2 = { σ with projects := σ.projects ++ [p],
                  nextProjectId := σ.nextProjectId + 1 } := by
  unfold inMemAddProject at h
  simp only [bind, Except.bind, pure, Except.pure] at h
  split at h
  · simp at h
  · split at h
    · simp at h
    · split at h
      · simp at h
      · split at h
        · simp at h
        · split at h
          · simp at h
          · rename_i x v heq
            obtain ⟨hv, -, -⟩ := projectInit_ok today σ.nextProjectId name description v heq
            simp only [Except.ok.injEq, Prod.mk.injEq] at h
            obtain ⟨hp, hσ⟩ := h
            subst hp
            exact ⟨by rw [hv], hσ.symm⟩

theorem inMemDeleteProject_ok (σ : Storage) (projectId : Nat) (σ2 : Storage)
    (h : inMemDeleteProject σ projectId = .ok σ2) :
    σ2.nextProjectId = σ.nextProjectId ∧ σ2.nextTaskId = σ.nextTaskId := by
  unfold inMemDeleteProject at h
  simp only [bind, Except.bind] at h
  split at h
  · simp at h
  · simp only [pure, Except.pure, Except.ok.injEq] at h
    rw [← h]
    exact ⟨rfl, rfl⟩

theorem inMemAddTaskToProject_ok (cfg : Config) (today : Day) (σ : Storage)
    (projectId : Nat) (title description status : String) (deadline : Option Day)
    (t : Task) (σ2 : Storage)
    (h : inMemAddTaskToProject cfg today σ projectId title description status deadline
        = .ok (t, σ2)) :
    t.id = σ.nextTaskId ∧ σ2.nextTaskId = σ.nextTaskId + 1 ∧
    σ2.nextProjectId = σ.nextProjectId := by
  unfold inMemAddTaskToProject Project.addTask at h
  simp only [bind, Except.bind, pure, Except.pure] at h
  split at h
  · simp at h
  · split at h
    · simp at h
    · rename_i x1 p1 heq1 x2 t1 heq2
      obtain ⟨hv, -, -, -⟩ := taskInit_ok today σ.nextTaskId title description status
        deadline t1 heq2
      split at h
      · simp at h
      · rename_i x3 v3 heq3
        split at heq3
        · simp at heq3
        · split at heq3
          · simp at heq3
          · simp only [Except.ok.injEq] at heq3
            subst heq3
            simp only [Except.ok.injEq, Prod.mk.injEq] at h
            obtain ⟨ht, hσ⟩ := h
            subst ht
            rw [← hσ]
            exact ⟨by rw [hv], rfl, rfl⟩

theorem inMemDeleteTask_ok (σ : Storage) (projectId taskId : Nat) (σ2 : Storage)
    (h : inMemDeleteTask σ projectId taskId = .ok σ2) :
    σ2.nextProjectId = σ.nextProjectId ∧ σ2.nextTaskId = σ.nextTaskId := by
  unfold inMemDeleteTask at h
  simp only [bind, Except.bind] at h
  split at h
  · simp at h
  · split at h
    · simp only [pure, Except.pure, Except.ok.injEq] at h
      rw [← h]
      exact ⟨rfl, rfl⟩
    · simp at h

theorem acc_le_foldl_max : ∀ (l : List Nat) (acc : Nat), acc ≤ l.foldl max acc := by
  intro l
  induction l with
  | nil => intro acc; exact Nat.le_refl acc
  | cons a l ih =>
    intro acc
    exact le_trans (Nat.le_max_left acc a) (ih (max acc a))

theorem mem_le_foldl_max : ∀ (l : List Nat) (acc : Nat), ∀ x ∈ l, x ≤ l.foldl max acc := by
  intro l
  induction l with
  | nil => intro acc x hx; simp at hx
  | cons a l ih =>
    intro acc x hx
    rcases List.mem_cons.mp hx with h | h
    · subst h
      exact le_trans (Nat.le_max_right acc x) (acc_le_foldl_max l (max acc x))
    · exact ih (max acc a) x h

theorem sqlGetNextProjectId_gt (db : DB) :
    ∀ r ∈ db.projects, r.id < sqlGetNextProjectId db := by
  intro r hr
  unfold sqlGetNextProjectId
  have h1 : db.projects.foldl (fun m r => max m r.id) 0
      = (db.projects.map ProjectRow.id).foldl max 0 := by
    rw [List.foldl_map]
  rw [h1]
  have := mem_le_foldl_max (db.projects.map ProjectRow.id) 0 r.id
    (List.mem_map_of_mem ProjectRow.id hr)
  omega

theorem sqlGetNextTaskId_gt (db : DB) :
    ∀ r ∈ db.tasks, r.id < sqlGetNextTaskId db := by
  intro r hr
  unfold sqlGetNextTaskId
  have h1 : db.tasks.foldl (fun m r => max m r.id) 0
      = (db.tasks.map TaskRow.id).foldl max 0 := by
    rw [List.foldl_map]
  rw [h1]
  have := mem_le_foldl_max (db.tasks.map TaskRow.id) 0 r.id
    (List.mem_map_of_mem TaskRow.id hr)
  omega

theorem memStep_bounds (cfg : Config) (today : Day) (σ : Storage) (op : MemOp) :
    σ.nextProjectId ≤ (memStep cfg today σ op).1.nextProjectId ∧
    σ.nextTaskId ≤ (memStep cfg today σ op).1.nextTaskId ∧
    (∀ i ∈ (memStep cfg today σ op).2.1,
      σ.nextProjectId ≤ i ∧ i < (memStep cfg today σ op).1.nextProjectId) ∧
    (∀ i ∈ (memStep cfg today σ op).2.2,
      σ.nextTaskId ≤ i ∧ i < (memStep cfg today σ op).1.nextTaskId) := by
  cases op with
  | addProject name description =>
    dsimp only [memStep]
    split
    · rename_i p σ2 heq
      obtain ⟨hid, hσ⟩ := inMemAddProject_ok cfg today σ name description p σ2 heq
      subst hσ
      dsimp only
      refine ⟨by omega, le_refl _, ?_, by simp⟩
      intro i hi
      simp only [List.mem_singleton] at hi
      subst hi
      omega
    · dsimp only
      exact ⟨le_refl _, le_refl _, by simp, by simp⟩
  | deleteProject projectId =>
    dsimp only [memStep]
    split
    · rename_i σ2 heq
      obtain ⟨h1, h2⟩ := inMemDeleteProject_ok σ projectId σ2 heq
      dsimp only
      exact ⟨by omega, by omega, by simp, by simp⟩
    · dsimp only
      exact ⟨le_refl _, le_refl _, by simp, by simp⟩
  | addTask projectId title description status deadline =>
    dsimp only [memStep]
    split
    · rename_i t σ2 heq
      obtain ⟨hid, h1, h2⟩ := inMemAddTaskToProject_ok cfg today σ projectId title
        description status deadline t σ2 heq
      dsimp only
      refine ⟨by omega, by omega, by simp, ?_⟩
      intro i hi
      simp only [List.mem_singleton] at hi
      subst hi
      omega
    · dsimp only
      exact ⟨le_refl _, le_refl _, by simp, by simp⟩
  | deleteTask projectId taskId =>
    dsimp only [memStep]
    split
    · rename_i σ2 heq
      obtain ⟨h1, h2⟩ := inMemDeleteTask_ok σ projectId taskId σ2 heq
      dsimp only
      exact ⟨by omega, by omega, by simp, by simp⟩
    · dsimp only
      exact ⟨le_refl _, le_refl _, by simp, by simp⟩

theorem memRun_bounds (cfg : Config) (today : Day) : ∀ (ops : List MemOp) (σ : Storage),
    σ.nextProjectId ≤ (memRun cfg today ops σ).1.nextProjectId ∧
    σ.nextTaskId ≤ (memRun cfg today ops σ).1.nextTaskId ∧
    (∀ i ∈ (memRun cfg today ops σ).2.1,
      σ.nextProjectId ≤ i ∧ i < (memRun cfg today ops σ).1.nextProjectId) ∧
    (∀ i ∈ (memRun cfg today ops σ).2.2,
      σ.nextTaskId ≤ i ∧ i < (memRun cfg today ops σ).1.nextTaskId) ∧
    (memRun cfg today ops σ).2.1.Pairwise (· < ·) ∧
    (memRun cfg today ops σ).2.2.Pairwise (· < ·) := by
  intro ops
  induction ops with
  | nil =>
    intro σ
    simp [memRun]
  | cons op ops ih =>
    intro σ
    obtain ⟨s1, s2, s3, s4⟩ := memStep_bounds cfg today σ op
    obtain ⟨r1, r2, r3, r4, r5, r6⟩ := ih (memStep cfg today σ op).1
    have hrun : memRun cfg today (op :: ops) σ
        = ((memRun cfg today ops (memStep cfg today σ op).1).1,
           (memStep cfg today σ op).2.1 ++ (memRun cfg today ops (memStep cfg today σ op).1).2.1,
           (memStep cfg today σ op).2.2 ++ (memRun cfg today ops (memStep cfg today σ op).1).2.2) := by
      rfl
    rw [hrun]
    dsimp only
    refine ⟨by omega, by omega, ?_, ?_, ?_, ?_⟩
    · intro i hi
      rcases List.mem_append.mp hi with h | h
      · have := s3 i h
        omega
      · have := r3 i h
        omega
    · intro i hi
      rcases List.mem_append.mp hi with h | h
      · have := s4 i h
        omega
      · have := r4 i h
        omega
    · rw [List.pairwise_append]
      refine ⟨?_, r5, ?_⟩
      · have hsub : ∀ i ∈ (memStep cfg today σ op).2.1, True := fun _ _ => trivial
        rcases hps : (memStep cfg today σ op).2.1 with _ | ⟨a, l⟩
        · exact List.Pairwise.nil
        · have : l = [] := by
            cases op <;> dsimp only [memStep] at hps <;> revert hps <;> split <;>
              intro hps <;> simp_all
          subst this
          simp
      · intro a ha b hb
        have h1 := s3 a ha
        have h2 := r3 b hb
        omega
    · rw [List.pairwise_append]
      refine ⟨?_, r6, ?_⟩
      · rcases hps : (memStep cfg today σ op).2.2 with _ | ⟨a, l⟩
        · exact List.Pairwise.nil
        · have : l = [] := by
            cases op <;> dsimp only [memStep] at hps <;> revert hps <;> split <;>
              intro hps <;> simp_all
          subst this
          simp
      · intro a ha b hb
        have h1 := s4 a ha
        have h2 := r4 b hb
        omega

/-- Claim C8 (amended): volatile-backend ids are allocated in strictly
increasing order, all allocated ids stay below the final counters, and a
further successful allocation exceeds every previously allocated id — ids
are never reused there, even across deletions; the durable backend only
guarantees max(stored id)+1, strictly greater than every currently stored
id. (As originally stated the claim is false for the durable backend: see
`id_reuse_after_delete`.) -/
theorem ids_monotone_per_backend :
    (∀ (cfg : Config) (today : Day) (ops : List MemOp) (σ0 : Storage),
      (memRun cfg today ops σ0).2.1.Pairwise (· < ·) ∧
      (memRun cfg today ops σ0).2.2.Pairwise (· < ·) ∧
      (∀ name description p σ2,
        inMemAddProject cfg today (memRun cfg today ops σ0).1 name description
          = .ok (p, σ2) →
        ∀ i ∈ (memRun cfg today ops σ0).2.1, i < p.id) ∧
      (∀ projectId title description status deadline t σ2,
        inMemAddTaskToProject cfg today (memRun cfg today ops σ0).1 projectId title
          description status deadline = .ok (t, σ2) →
        ∀ i ∈ (memRun cfg today ops σ0).2.2, i < t.id)) ∧
    (∀ db : DB, (∀ r ∈ db.projects, r.id < sqlGetNextProjectId db) ∧
                (∀ r ∈ db.tasks, r.id < sqlGetNextTaskId db)) := by
  constructor
  · intro cfg today ops σ0
    obtain ⟨r1, r2, r3, r4, r5, r6⟩ := memRun_bounds cfg today ops σ0
    refine ⟨r5, r6, ?_, ?_⟩
    · intro name description p σ2 h i hi
      obtain ⟨hid, -⟩ := inMemAddProject_ok cfg today _ name description p σ2 h
      have := r3 i hi
      omega
    · intro projectId title description status deadline t σ2 h i hi
      obtain ⟨hid, -, -⟩ := inMemAddTaskToProject_ok cfg today _ projectId title
        description status deadline t σ2 h
      have := r4 i hi
      omega
  · intro db
    exact ⟨sqlGetNextProjectId_gt db, sqlGetNextTaskId_gt db⟩

/-- Claim C8 counterexample: with projects 1 and 2 stored, the durable
backend would allocate 3 next; after deleting project 2 it hands out id 2
again, which is not strictly greater than the previously allocated id 2 —
durable ids are reused after deletion, refuting the claim as stated. -/
theorem id_reuse_after_delete :
    sqlGetNextProjectId ⟨[⟨1, "A", "", 0⟩, ⟨2, "B", "", 0⟩], []⟩ = 3 ∧
    sqlDeleteProject ⟨[⟨1, "A", "", 0⟩, ⟨2, "B", "", 0⟩], []⟩ 2
      = .ok ⟨[⟨1, "A", "", 0⟩], []⟩ ∧
    sqlGetNextProjectId ⟨[⟨1, "A", "", 0⟩], []⟩ = 2 ∧
    ¬ (2 < sqlGetNextProjectId ⟨[⟨1, "A", "", 0⟩], []⟩) := by
  refine ⟨rfl, by rfl, rfl, by decide⟩

/-! C9: frame property of status-only update -/

theorem getProject_ok (σ : Storage) (projectId : Nat) (p : Project)
    (h : σ.getProject projectId = .ok p) :
    p ∈ σ.projects ∧ p.id = projectId := by
  unfold Storage.getProject at h
  split at h
  · rename_i p1 hfind
    simp only [Except.ok.injEq] at h
    subst h
    refine ⟨List.mem_of_find?_eq_some hfind, ?_⟩
    have := List.find?_some hfind
    simpa using this
  · simp at h

theorem find?_split {α : Type} (p : α → Bool) : ∀ (ts : List α) (a : α),
    ts.find? p = some a →
    ∃ l1 l2, ts = l1 ++ a :: l2 ∧ (∀ t ∈ l1, p t = false) := by
  intro ts
  induction ts with
  | nil => intro a h; simp at h
  | cons t ts ih =>
    intro a h
    cases hp : p t
    · rw [List.find?_cons_of_neg _ (by simp [hp])] at h
      obtain ⟨l1, l2, he, hl⟩ := ih a h
      refine ⟨t :: l1, l2, by rw [List.cons_append, he], ?_⟩
      intro x hx
      rcases List.mem_cons.mp hx with h1 | h1
      · subst h1; exact hp
      · exact hl x h1
    · rw [List.find?_cons_of_pos _ hp] at h
      simp only [Option.some.injEq] at h
      subst h
      exact ⟨[], ts, rfl, by simp⟩

theorem setTaskFirst_append (l1 l2 : List Task) (a u : Task) (taskId : Nat)
    (hl1 : ∀ t ∈ l1, (t.id == taskId) = false) (ha : (a.id == taskId) = true) :
    setTaskFirst (l1 ++ a :: l2) taskId u = l1 ++ u :: l2 := by
  induction l1 with
  | nil => simp [setTaskFirst, ha]
  | cons t l1 ih =>
    have ht := hl1 t (List.mem_cons_self t l1)
    rw [List.cons_append]
    rw [setTaskFirst]
    rw [ht]
    simp only [Bool.false_eq_true, if_false, List.cons_append]
    rw [ih (fun x hx => hl1 x (List.mem_cons_of_mem t hx))]

/-- The C9 frame contract for `update_task` called with only a status. -/
def UpdateStatusFrame (σ : Storage) (projectId taskId : Nat) (st : String)
    (p : Project) (task : Task) : Prop :=
  ∃ u σ2, serviceUpdateTask σ projectId taskId none none (some st) none = .ok (u, σ2) ∧
    u.id = task.id ∧ u.title = task.title ∧ u.description = task.description ∧
    u.deadline = task.deadline ∧ u.status = st ∧
    σ2.nextProjectId = σ.nextProjectId ∧ σ2.nextTaskId = σ.nextTaskId ∧
    σ2.projects.length = σ.projects.length ∧
    (∀ q ∈ σ.projects, q.id ≠ projectId → q ∈ σ2.projects) ∧
    (∃ p2 ∈ σ2.projects, p2.id = p.id ∧ p2.name = p.name ∧
      p2.description = p.description ∧ p2.createdAt = p.createdAt ∧
      ∃ l1 l2, p.tasks = l1 ++ task :: l2 ∧ p2.tasks = l1 ++ u :: l2)

/-- Claim C9: update_task called with only status provided (title,
description and deadline omitted) succeeds on an existing project and task,
changes only that task's status, leaves its id, title, description and
deadline unchanged, leaves the project's scalar fields and every other task
in place (same positions), leaves every other project unchanged, and leaves
the id counters unchanged. -/
theorem update_task_status_frame (σ : Storage) (projectId taskId : Nat) (st : String)
    (p : Project) (task : Task)
    (hp : σ.getProject projectId = .ok p)
    (ht : p.getTask taskId = some task)
    (hst : statusValues.contains st = true) :
    UpdateStatusFrame σ projectId taskId st p task := by
  have hcomp : serviceUpdateTask σ projectId taskId none none (some st) none
      = .ok ({ task with status := st },
             σ.saveProject
               { p with tasks := setTaskFirst p.tasks taskId { task with status := st } }) := by
    unfold serviceUpdateTask
    simp only [hp, bind, Except.bind, ht, hst, svcStepTitle, svcStepDescription,
      svcStepStatus, svcStepDeadline, Bool.not_true, Bool.false_eq_true,
      if_false, pure, Except.pure]
  obtain ⟨hmem, hpid⟩ := getProject_ok σ projectId p hp
  have htfind : p.tasks.find? (fun t => t.id == taskId) = some task := ht
  have htid : (task.id == taskId) = true := by
    have := List.find?_some htfind
    simpa using this
  obtain ⟨l1, l2, hsplit, hl1⟩ :=
    find?_split (fun t => t.id == taskId) p.tasks task htfind
  have hset : setTaskFirst p.tasks taskId { task with status := st }
      = l1 ++ { task with status := st } :: l2 := by
    rw [hsplit]
    exact setTaskFirst_append l1 l2 task _ taskId hl1 htid
  set p2 : Project := { p with tasks := setTaskFirst p.tasks taskId { task with status := st } }
  have hp2id : p2.id = p.id := rfl
  have hany : (σ.projects.any (fun q => q.id == p2.id)) = true := by
    rw [List.any_eq_true]
    exact ⟨p, hmem, by simp [hp2id]⟩
  have hsave : (σ.saveProject p2).projects
      = σ.projects.map (fun q => if q.id == p2.id then p2 else q) := by
    unfold Storage.saveProject
    rw [if_pos hany]
  refine ⟨{ task with status := st }, σ.saveProject p2, hcomp, rfl, rfl, rfl, rfl, rfl,
    ?_, ?_, ?_, ?_, ?_⟩
  · unfold Storage.saveProject
    split <;> rfl
  · unfold Storage.saveProject
    split <;> rfl
  · rw [hsave, List.length_map]
  · intro q hq hqne
    rw [hsave, List.mem_map]
    refine ⟨q, hq, ?_⟩
    have hne : (q.id == p2.id) = false := by
      rw [hp2id, hpid]
      simp [hqne]
    simp [hne]
  · refine ⟨p2, ?_, hp2id, rfl, rfl, rfl, l1, l2, hsplit, ?_⟩
    · rw [hsave, List.mem_map]
      refine ⟨p, hmem, ?_⟩
      simp [hp2id]
    · exact hset

/-! C10: the status enum invariant and get_tasks_by_status -/

theorem mem_of_contains {l : List String} {s : String}
    (h : l.contains s = true) : s ∈ l := by
  have := List.contains_iff_exists_mem_beq.mp h
  obtain ⟨a, ha, hb⟩ := this
  have hsa : s = a := by simpa using hb
  rw [hsa]; exact ha

theorem stepTitle_status (title : Option String) (t : Task) :
    ((stepTitle title t).1).status = t.status := by
  unfold stepTitle
  cases title
  · rfl
  · rename_i s
    cases h : validateTaskTitle s <;> simp [h]

theorem stepDescription_status (description : Option String) (t : Task) :
    ((stepDescription description t).1).status = t.status := by
  unfold stepDescription
  cases description
  · rfl
  · rename_i s
    cases h : validateTaskDescription s <;> simp [h]

theorem stepStatus_status_mem (status : Option String) (t : Task)
    (h : t.status ∈ statusValues) : ((stepStatus status t).1).status ∈ statusValues := by
  unfold stepStatus
  cases status
  · exact h
  · rename_i s
    cases hc : statusValues.contains s
    · simp only [hc, Bool.not_false, if_true]
      exact h
    · simp only [hc, Bool.not_true, Bool.false_eq_true, if_false]
      exact mem_of_contains hc

theorem stepDeadline_status (deadline : Option Day) (t : Task) :
    ((stepDeadline deadline t).1).status = t.status := by
  unfold stepDeadline
  cases deadline <;> rfl

theorem thenStep_fst (r : Task × Option TdlError) (f : Task → Task × Option TdlError) :
    (thenStep r f).1 = (f r.1).1 ∨ (thenStep r f).1 = r.1 := by
  rcases r with ⟨t, e⟩
  cases e
  · left; rfl
  · right; rfl

/-- The three status-partition lists, as filters in insertion order. -/
def statusPartition (ts : List Task) : List Task × List Task × List Task :=
  (ts.filter (fun t => t.status == "todo"),
   ts.filter (fun t => t.status == "doing"),
   ts.filter (fun t => t.status == "done"))

theorem getTasksByStatus_go (ts : List Task) :
    ∀ (td dg dn : List Task), (∀ t ∈ ts, t.status ∈ statusValues) →
    ts.foldl
      (fun acc t =>
        match acc with
        | none => none
        | some (td, dg, dn) =>
          if t.status = "todo" then some (td ++ [t], dg, dn)
          else if t.status = "doing" then some (td, dg ++ [t], dn)
          else if t.status = "done" then some (td, dg, dn ++ [t])
          else none)
      (some (td, dg, dn))
      = some (td ++ ts.filter (fun t => t.status == "todo"),
              dg ++ ts.filter (fun t => t.status == "doing"),
              dn ++ ts.filter (fun t => t.status == "done")) := by
  induction ts with
  | nil => intro td dg dn _; simp
  | cons t ts ih =>
    intro td dg dn hall
    have hmem := hall t (List.mem_cons_self t ts)
    have hrest : ∀ x ∈ ts, x.status ∈ statusValues :=
      fun x hx => hall x (List.mem_cons_of_mem t hx)
    simp only [statusValues, List.mem_cons, List.not_mem_nil, or_false] at hmem
    rw [List.foldl_cons]
    dsimp only
    rcases hmem with h | h | h
    · rw [if_pos h, ih _ _ _ hrest]
      simp [h, List.filter_cons, List.append_assoc]
    · rw [if_neg (by simp [h]), if_pos h, ih _ _ _ hrest]
      simp [h, List.filter_cons, List.append_assoc]
    · rw [if_neg (by simp [h]), if_neg (by simp [h]), if_pos h, ih _ _ _ hrest]
      simp [h, List.filter_cons, List.append_assoc]

/-- Claim C10: every task constructed by Task.__init__ or mutated by
change_status, update_task or the auto-close pass has status in
{"todo", "doing", "done"}; consequently get_tasks_by_status never hits a
missing key and returns exactly the three keys, each mapping to the
sub-sequence of tasks with that status in insertion order. -/
theorem status_invariant_and_grouping :
    (∀ (today : Day) (id_ : Nat) (title description status : String)
        (deadline : Option Day) (t : Task),
      Task.init today id_ title description status deadline = .ok t →
      t.status ∈ statusValues) ∧
    (∀ (t : Task) (newStatus : String) (u : Task),
      Task.changeStatus t newStatus = .ok u → u.status ∈ statusValues) ∧
    (∀ (t : Task) (title description status : Option String) (deadline : Option Day),
      t.status ∈ statusValues →
      ((Task.updateTask t title description status deadline).1).status ∈ statusValues) ∧
    (∀ (today : Day) (ts : List Task), (∀ t ∈ ts, t.status ∈ statusValues) →
      ∀ u ∈ (autocloseTasks today ts).1, u.status ∈ statusValues) ∧
    (∀ p : Project, (∀ t ∈ p.tasks, t.status ∈ statusValues) →
      p.getTasksByStatus = some (statusPartition p.tasks)) := by
  refine ⟨?_, ?_, ?_, ?_, ?_⟩
  · intro today id_ title description status deadline t h
    obtain ⟨ht, hc, -, -⟩ := taskInit_ok today id_ title description status deadline t h
    subst ht
    exact mem_of_contains hc
  · intro t newStatus u h
    unfold Task.changeStatus at h
    cases hc : statusValues.contains newStatus
    · rw [hc] at h; simp at h
    · rw [hc] at h
      simp only [Bool.not_true, Bool.false_eq_true, if_false, Except.ok.injEq] at h
      subst h
      exact mem_of_contains hc
  · intro t title description status deadline h
    unfold Task.updateTask
    have h1 : ((stepTitle title t).1).status ∈ statusValues := by
      rw [stepTitle_status]; exact h
    have h2 : ∀ t1 : Task, t1.status ∈ statusValues →
        ((thenStep (stepTitle title t) (stepDescription description)).1).status
          ∈ statusValues := by
      intro _ _
      rcases thenStep_fst (stepTitle title t) (stepDescription description) with he | he
      · rw [he, stepDescription_status]; exact h1
      · rw [he]; exact h1
    have h3 := h2 t h
    rcases thenStep_fst (thenStep (stepTitle title t) (stepDescription description))
      (stepStatus status) with he | he
    · rcases thenStep_fst (thenStep (thenStep (stepTitle title t)
        (stepDescription description)) (stepStatus status)) (stepDeadline deadline)
        with he2 | he2
      · rw [he2, stepDeadline_status, he]
        exact stepStatus_status_mem status _ h3
      · rw [he2, he]
        exact stepStatus_status_mem status _ h3
    · rcases thenStep_fst (thenStep (thenStep (stepTitle title t)
        (stepDescription description)) (stepStatus status)) (stepDeadline deadline)
        with he2 | he2
      · rw [he2, stepDeadline_status, he]
        exact h3
      · rw [he2, he]
        exact h3
  · intro today ts hall u hu
    rw [autocloseTasks_eq] at hu
    simp only [List.mem_map] at hu
    obtain ⟨t, htmem, rfl⟩ := hu
    unfold closeTaskStep
    by_cases hov : isOverdue today t = true
    · simp only [hov, if_true]
      unfold closeTask
      simp [statusValues]
    · simp only [hov, Bool.false_eq_true, if_false]
      exact hall t htmem
  · intro p hall
    unfold Project.getTasksByStatus
    rw [getTasksByStatus_go p.tasks [] [] [] hall]
    simp [statusPartition]

/-! C7: case-insensitive uniqueness as a preserved invariant -/

/-- No two projects in the list have names equal ignoring case. -/
def NamesUniqueCI (ps : List Project) : Prop :=
  (ps.map (fun p => pyLower p.name)).Nodup

/-- No two tasks of the project have titles equal ignoring case. -/
def TitlesUniqueCI (p : Project) : Prop :=
  (p.tasks.map (fun t => pyLower t.title)).Nodup

/-- The C7 state invariant over a storage. -/
def UniqueInv (σ : Storage) : Prop :=
  NamesUniqueCI σ.projects ∧ ∀ p ∈ σ.projects, TitlesUniqueCI p

/-- Stored ids are distinct: project ids across the storage, task ids within
each project (guaranteed by id allocation; a side condition here). -/
def IdInv (σ : Storage) : Prop :=
  (σ.projects.map Project.id).Nodup ∧ ∀ p ∈ σ.projects, (p.tasks.map Task.id).Nodup

theorem nodup_append_singleton {α : Type} (l : List α) (a : α) :
    (l ++ [a]).Nodup ↔ l.Nodup ∧ a ∉ l := by
  simp [List.nodup_append]

theorem mem_map_replace (ps : List Project) (u : Project) (x : Project)
    (hx : x ∈ ps.map (fun q => if q.id == u.id then u else q)) :
    x ∈ ps ∨ x = u := by
  rw [List.mem_map] at hx
  obtain ⟨q, hq, he⟩ := hx
  by_cases h : (q.id == u.id) = true
  · rw [if_pos h] at he
    right; exact he.symm
  · rw [if_neg h] at he
    left; exact he ▸ hq

theorem nodup_lower_map_replace : ∀ (ps : List Project) (u : Project),
    (ps.map Project.id).Nodup →
    (ps.map (fun p => pyLower p.name)).Nodup →
    (∀ q ∈ ps, q.id ≠ u.id → pyLower q.name ≠ pyLower u.name) →
    ((ps.map (fun q => if q.id == u.id then u else q)).map
      (fun p => pyLower p.name)).Nodup := by
  intro ps
  induction ps with
  | nil => intro u _ _ _; simp
  | cons q rest ih =>
    intro u hid hnm hnew
    rw [List.map_cons, List.nodup_cons] at hid hnm
    rw [List.map_cons, List.map_cons, List.nodup_cons]
    by_cases hq : (q.id == u.id) = true
    · rw [if_pos hq]
      have hqid : q.id = u.id := by simpa using hq
      have hrest : ∀ r ∈ rest, r.id ≠ u.id := by
        intro r hr he
        apply hid.1
        rw [hqid, ← he]
        exact List.mem_map_of_mem Project.id hr
      have hrepl : rest.map (fun r => if r.id == u.id then u else r) = rest := by
        refine List.map_congr_left (fun r hr => ?_) |>.trans (List.map_id' rest)
        have : (r.id == u.id) = false := by
          simpa using hrest r hr
        simp [this]
      rw [hrepl]
      constructor
      · intro hmem
        rw [List.mem_map] at hmem
        obtain ⟨r, hr, he⟩ := hmem
        exact hnew r (List.mem_cons_of_mem q hr) (hrest r hr) he
      · exact hnm.2
    · rw [if_neg hq]
      have hqid : q.id ≠ u.id := by simpa using hq
      refine ⟨?_, ih u hid.2 hnm.2 (fun r hr => hnew r (List.mem_cons_of_mem q hr))⟩
      intro hmem
      rw [List.mem_map] at hmem
      obtain ⟨r, hr, he⟩ := hmem
      rcases mem_map_replace rest u r hr with hmem2 | hmem2
      · exact hnm.1 (he ▸ List.mem_map_of_mem (fun p => pyLower p.name) hmem2)
      · subst hmem2
        exact hnew q (List.mem_cons_self q rest) hqid he.symm

theorem saveProject_uniqueInv (σ : Storage) (u : Project)
    (hid : (σ.projects.map Project.id).Nodup)
    (hnames : NamesUniqueCI σ.projects)
    (hnew : ∀ q ∈ σ.projects, q.id ≠ u.id → pyLower q.name ≠ pyLower u.name)
    (hall : ∀ q ∈ σ.projects, TitlesUniqueCI q)
    (hu : TitlesUniqueCI u) :
    UniqueInv (σ.saveProject u) := by
  unfold Storage.saveProject
  by_cases hany : (σ.projects.any (fun q => q.id == u.id)) = true
  · rw [if_pos hany]
    constructor
    · exact nodup_lower_map_replace σ.projects u hid hnames hnew
    · intro p hp
      rcases mem_map_replace σ.projects u p hp with h | h
      · exact hall p h
      · subst h; exact hu
  · rw [if_neg hany]
    have hno : ∀ q ∈ σ.projects, q.id ≠ u.id := by
      intro q hq he
      apply hany
      rw [List.any_eq_true]
      exact ⟨q, hq, by simp [he]⟩
    constructor
    · unfold NamesUniqueCI
      rw [List.map_append]
      simp only [List.map_cons, List.map_nil]
      rw [nodup_append_singleton]
      refine ⟨hnames, ?_⟩
      intro hmem
      rw [List.mem_map] at hmem
      obtain ⟨r, hr, he⟩ := hmem
      exact hnew r hr (hno r hr) he
    · intro p hp
      rcases List.mem_append.mp hp with h | h
      · exact hall p h
      · rw [List.mem_singleton] at h
        subst h; exact hu

theorem createProject_ok (cfg : Config) (today : Day) (σ : Storage)
    (name description : String) (pr : Project) (σ2 : Storage)
    (h : createProject cfg today σ name description = .ok (pr, σ2)) :
    pr = { id := σ.nextProjectId, name := name, description := description,
           createdAt := today, tasks := [] } ∧
    σ2 = Storage.saveProject
      { σ with nextProjectId := σ.nextProjectId + 1 } pr ∧
    (σ.projects.any (fun p => pyLower p.name == pyLower name)) = false := by
  unfold createProject at h
  simp only [bind, Except.bind, pure, Except.pure, Storage.listProjects] at h
  split at h
  · simp at h
  · split at h
    · simp at h
    · split at h
      · simp at h
      · split at h
        · simp at h
        · split at h
          · simp at h
          · rename_i hany x v heq
            obtain ⟨hv, -, -⟩ := projectInit_ok today σ.nextProjectId name description v heq
            simp only [Except.ok.injEq, Prod.mk.injEq] at h
            obtain ⟨hpr, hσ⟩ := h
            subst hpr
            refine ⟨hv, ?_, by simpa using hany⟩
            rw [← hσ, hv]

theorem updateProject_ok (σ : Storage) (projectId : Nat)
    (name description : String) (pr : Project) (σ2 : Storage)
    (h : updateProject σ projectId name description = .ok (pr, σ2)) :
    ∃ p, σ.getProject projectId = .ok p ∧
      pr = setProjectFields name description p ∧
      σ2 = σ.saveProject pr ∧
      (σ.projects.any
        (fun q => q.id != projectId && (pyLower q.name == pyLower name))) = false := by
  unfold updateProject at h
  simp only [bind, Except.bind, pure, Except.pure, Storage.listProjects] at h
  split at h
  · simp at h
  · rename_i x p heq
    split at h
    · simp at h
    · split at h
      · simp at h
      · split at h
        · simp at h
        · rename_i hdup
          simp only [Except.ok.injEq, Prod.mk.injEq] at h
          obtain ⟨hpr, hσ⟩ := h
          subst hpr
          exact ⟨p, heq, rfl, hσ.symm, by simpa using hdup⟩

theorem createTask_ok (cfg : Config) (today : Day) (σ : Storage) (projectId : Nat)
    (title description status : String) (deadline : Option Day)
    (t : Task) (σ2 : Storage)
    (h : createTask cfg today σ projectId title description status deadline
        = .ok (t, σ2)) :
    ∃ project, σ.getProject projectId = .ok project ∧
      t = { id := σ.nextTaskId, title := title, description := description,
            status := status, deadline := deadline, createdAt := today,
            closedAt := none } ∧
      σ2 = Storage.saveProject { σ with nextTaskId := σ.nextTaskId + 1 }
        { project with tasks := project.tasks ++ [t] } ∧
      (project.tasks.any (fun x => pyLower x.title == pyLower title)) = false := by
  unfold createTask at h
  simp only [bind, Except.bind, pure, Except.pure, Storage.listProjects,
    Project.listAllTasks, Project.getTaskCount] at h
  split at h
  · simp at h
  · rename_i x project heq
    split at h
    · simp at h
    · split at h
      · simp at h
      · split at h
        · simp at h
        · split at h
          · simp at h
          · split at h
            · simp at h
            · split at h
              · simp at h
              · rename_i hdup x2 t1 heq2
                obtain ⟨hv, -, -, -⟩ := taskInit_ok today σ.nextTaskId title description
                  status deadline t1 heq2
                simp only [Except.ok.injEq, Prod.mk.injEq] at h
                obtain ⟨ht, hσ⟩ := h
                subst ht
                refine ⟨project, heq, hv, ?_, by simpa using hdup⟩
                rw [← hσ, hv]

theorem svcStepTitle_ok (project : Project) (taskId : Nat) (title : Option String)
    (task u : Task) (h : svcStepTitle project taskId title task = .ok u) :
    (title = none ∧ u = task) ∨
    (∃ s, title = some s ∧ u = { task with title := s } ∧
      (project.tasks.any
        (fun x => x.id != taskId && (pyLower x.title == pyLower s))) = false) := by
  unfold svcStepTitle at h
  cases title with
  | none =>
    simp only [pure, Except.pure, Except.ok.injEq] at h
    exact Or.inl ⟨rfl, h.symm⟩
  | some s =>
    simp only [bind, Except.bind, pure, Except.pure, Project.listAllTasks] at h
    split at h
    · simp at h
    · split at h
      · simp at h
      · rename_i hdup
        simp only [Except.ok.injEq] at h
        exact Or.inr ⟨s, rfl, h.symm, by simpa using hdup⟩

theorem svcStepDescription_title (description : Option String) (task u : Task)
    (h : svcStepDescription description task = .ok u) : u.title = task.title := by
  unfold svcStepDescription at h
  cases description with
  | none =>
    simp only [pure, Except.pure, Except.ok.injEq] at h
    rw [← h]
  | some s =>
    simp only [bind, Except.bind, pure, Except.pure] at h
    split at h
    · simp at h
    · simp only [Except.ok.injEq] at h
      rw [← h]

theorem svcStepStatus_title (status : Option String) (task u : Task)
    (h : svcStepStatus status task = .ok u) : u.title = task.title := by
  unfold svcStepStatus at h
  cases status with
  | none =>
    simp only [pure, Except.pure, Except.ok.injEq] at h
    rw [← h]
  | some s =>
    dsimp only at h
    split at h
    · simp at h
    · simp only [pure, Except.pure, Except.ok.injEq] at h
      rw [← h]

theorem svcStepDeadline_title (deadline : Option Day) (task : Task) :
    (svcStepDeadline deadline task).title = task.title := by
  unfold svcStepDeadline
  cases deadline <;> rfl

theorem serviceUpdateTask_ok (σ : Storage) (projectId taskId : Nat)
    (title description status : Option String) (deadline : Option Day)
    (t : Task) (σ2 : Storage)
    (h : serviceUpdateTask σ projectId taskId title description status deadline
        = .ok (t, σ2)) :
    ∃ p task, σ.getProject projectId = .ok p ∧ p.getTask taskId = some task ∧
      σ2 = σ.saveProject { p with tasks := setTaskFirst p.tasks taskId t } ∧
      (t.title = task.title ∨
        ∃ s, title = some s ∧ t.title = s ∧
          (p.tasks.any
            (fun x => x.id != taskId && (pyLower x.title == pyLower s))) = false) := by
  unfold serviceUpdateTask at h
  simp only [bind, Except.bind, pure, Except.pure] at h
  split at h
  · simp at h
  · rename_i x p heq
    split at h
    · rename_i task hget
      split at h
      · simp at h
      · rename_i x1 u1 heq1
        split at h
        · simp at h
        · rename_i x2 u2 heq2
          split at h
          · simp at h
          · rename_i x3 u3 heq3
            simp only [Except.ok.injEq, Prod.mk.injEq] at h
            obtain ⟨ht, hσ⟩ := h
            subst ht
            refine ⟨p, task, heq, hget, hσ.symm, ?_⟩
            rcases svcStepTitle_ok p taskId title task u1 heq1 with ⟨-, hu⟩ | ⟨s, hs, hu, hdup⟩
            · left
              rw [svcStepDeadline_title, svcStepStatus_title status u2 u3 heq3,
                svcStepDescription_title description u1 u2 heq2, hu]
            · right
              refine ⟨s, hs, ?_, hdup⟩
              rw [svcStepDeadline_title, svcStepStatus_title status u2 u3 heq3,
                svcStepDescription_title description u1 u2 heq2, hu]
    · simp at h

theorem ne_of_mem_lower_nodup (ps : List Project) (hnm : NamesUniqueCI ps)
    (p q : Project) (hp : p ∈ ps) (hq : q ∈ ps) (hne : q.id ≠ p.id) :
    pyLower q.name ≠ pyLower p.name := by
  intro he
  have := List.inj_on_of_nodup_map hnm hq hp he
  exact hne (by rw [this])

/-- Claim C7: case-insensitive uniqueness of project names, and of task
titles within each project, is an invariant (together with id distinctness)
preserved by create_project, update_project, create_task and update_task;
and each of the four operations fails with DuplicateError rather than
violate it: create_project on a name matching a stored name ignoring case
(valid inputs, limit not reached), update_project on a name matching
another project ignoring case, create_task on a title matching an existing
task in the project ignoring case (valid inputs, limit not reached), and
update_task given a title matching another task in the project ignoring
case. -/
theorem unique_invariant_preserved (cfg : Config) (today : Day) (σ : Storage)
    (huniq : UniqueInv σ) (hid : IdInv σ) :
    (∀ name description pr σ2,
      createProject cfg today σ name description = .ok (pr, σ2) → UniqueInv σ2) ∧
    (∀ projectId name description pr σ2,
      updateProject σ projectId name description = .ok (pr, σ2) → UniqueInv σ2) ∧
    (∀ projectId title description status deadline t σ2,
      createTask cfg today σ projectId title description status deadline
        = .ok (t, σ2) → UniqueInv σ2) ∧
    (∀ projectId taskId title description status deadline t σ2,
      serviceUpdateTask σ projectId taskId title description status deadline
        = .ok (t, σ2) → UniqueInv σ2) ∧
    (∀ name description, validateProjectName name = .ok () →
      validateProjectDescription description = .ok () →
      σ.projects.length < cfg.maxProjects →
      (∃ p ∈ σ.projects, pyLower p.name = pyLower name) →
      ∃ msg, createProject cfg today σ name description
        = .error (.duplicate msg)) ∧
    (∀ projectId name description p,
      σ.getProject projectId = .ok p →
      validateProjectName name = .ok () →
      validateProjectDescription description = .ok () →
      (∃ q ∈ σ.projects, q.id ≠ projectId ∧ pyLower q.name = pyLower name) →
      ∃ msg, updateProject σ projectId name description
        = .error (.duplicate msg)) ∧
    (∀ projectId title description status deadline project,
      σ.getProject projectId = .ok project →
      validateTaskTitle title = .ok () →
      validateTaskDescription description = .ok () →
      statusValues.contains status = true →
      project.getTaskCount < cfg.maxTasksPerProject →
      (∃ x ∈ project.tasks, pyLower x.title = pyLower title) →
      ∃ msg, createTask cfg today σ projectId title description status deadline
        = .error (.duplicate msg)) ∧
    (∀ projectId taskId s description status deadline p task,
      σ.getProject projectId = .ok p →
      p.getTask taskId = some task →
      validateTaskTitle s = .ok () →
      (∃ x ∈ p.tasks, x.id ≠ taskId ∧ pyLower x.title = pyLower s) →
      ∃ msg, serviceUpdateTask σ projectId taskId (some s) description status deadline
        = .error (.duplicate msg)) := by
  obtain ⟨hnames, halltitles⟩ := huniq
  obtain ⟨hidp, hidt⟩ := hid
  refine ⟨?_, ?_, ?_, ?_, ?_, ?_, ?_, ?_⟩
  · -- create_project preserves the invariant
    intro name description pr σ2 h
    obtain ⟨hpr, hσ2, hdup⟩ := createProject_ok cfg today σ name description pr σ2 h
    rw [List.any_eq_false] at hdup
    subst hσ2
    exact saveProject_uniqueInv _ pr hidp hnames
      (fun q hq _ => by
        have := hdup q hq
        rw [hpr]
        simpa using this)
      halltitles
      (by rw [hpr]; simp [TitlesUniqueCI])
  · -- update_project preserves the invariant
    intro projectId name description pr σ2 h
    obtain ⟨p, hp, hpr, hσ2, hdup⟩ := updateProject_ok σ projectId name description pr σ2 h
    obtain ⟨hmem, hpid⟩ := getProject_ok σ projectId p hp
    rw [List.any_eq_false] at hdup
    subst hσ2
    refine saveProject_uniqueInv σ pr hidp hnames ?_ halltitles ?_
    · intro q hq hqne
      have hqpid : q.id ≠ projectId := by
        rw [hpr] at hqne
        simpa [setProjectFields, hpid] using hqne
      have := hdup q hq
      rw [hpr]
      simp only [setProjectFields]
      simp only [Bool.and_eq_true, bne_iff_ne, not_and] at this
      have h2 := this hqpid
      simpa using h2
    · rw [hpr]
      exact halltitles p hmem
  · -- create_task preserves the invariant
    intro projectId title description status deadline t σ2 h
    obtain ⟨project, hp, ht, hσ2, hdup⟩ :=
      createTask_ok cfg today σ projectId title description status deadline t σ2 h
    obtain ⟨hmem, hpid⟩ := getProject_ok σ projectId project hp
    rw [List.any_eq_false] at hdup
    subst hσ2
    refine saveProject_uniqueInv _ _ hidp hnames ?_ halltitles ?_
    · intro q hq hqne
      exact ne_of_mem_lower_nodup σ.projects hnames project q hmem hq (by simpa using hqne)
    · unfold TitlesUniqueCI
      simp only [List.map_append, List.map_cons, List.map_nil]
      rw [nodup_append_singleton]
      refine ⟨halltitles project hmem, ?_⟩
      intro hin
      rw [List.mem_map] at hin
      obtain ⟨x, hx, he⟩ := hin
      have := hdup x hx
      rw [ht] at he
      simp only at he
      exact this (by simpa using he)
  · -- update_task preserves the invariant
    intro projectId taskId title description status deadline t σ2 h
    obtain ⟨p, task, hp, hget, hσ2, htitle⟩ :=
      serviceUpdateTask_ok σ projectId taskId title description status deadline t σ2 h
    obtain ⟨hmem, hpid⟩ := getProject_ok σ projectId p hp
    have htfind : p.tasks.find? (fun x => x.id == taskId) = some task := hget
    have htid : (task.id == taskId) = true := by
      have := List.find?_some htfind
      simpa using this
    obtain ⟨l1, l2, hsplit, hl1⟩ :=
      find?_split (fun x => x.id == taskId) p.tasks task htfind
    have hset : setTaskFirst p.tasks taskId t = l1 ++ t :: l2 := by
      rw [hsplit]
      exact setTaskFirst_append l1 l2 task t taskId hl1 htid
    subst hσ2
    refine saveProject_uniqueInv σ _ hidp hnames ?_ halltitles ?_
    · intro q hq hqne
      exact ne_of_mem_lower_nodup σ.projects hnames p q hmem hq (by simpa using hqne)
    · unfold TitlesUniqueCI
      simp only [hset]
      have horig : ((l1 ++ task :: l2).map (fun x => pyLower x.title)).Nodup := by
        rw [← hsplit]
        exact halltitles p hmem
      rw [List.map_append, List.map_cons] at horig ⊢
      rw [List.nodup_middle] at horig ⊢
      rw [List.nodup_cons] at horig ⊢
      rcases htitle with he | ⟨s, hs, he, hdup⟩
      · rw [he]
        exact horig
      · rw [List.any_eq_false] at hdup
        refine ⟨?_, horig.2⟩
        rw [he]
        intro hin
        rw [← List.map_append, List.mem_map] at hin
        obtain ⟨x, hx, hxe⟩ := hin
        have hxid : x.id ≠ taskId := by
          rcases List.mem_append.mp hx with h1 | h1
          · have := hl1 x h1
            simpa using this
          · -- x ∈ l2: task ids within the project are distinct
            have hnod := hidt p hmem
            rw [hsplit, List.map_append, List.map_cons, List.nodup_middle,
              List.nodup_cons] at hnod
            intro hxeq
            apply hnod.1
            have : task.id = taskId := by simpa using htid
            rw [this, ← hxeq, ← List.map_append]
            exact List.mem_map_of_mem Task.id (List.mem_append_right l1 h1)
        have hxmem : x ∈ p.tasks := by
          rw [hsplit]
          rcases List.mem_append.mp hx with h1 | h1
          · exact List.mem_append_left _ h1
          · exact List.mem_append_right _ (List.mem_cons_of_mem task h1)
        have := hdup x hxmem
        simp only [Bool.and_eq_true, bne_iff_ne, not_and] at this
        exact this hxid (by simpa using hxe)
  · -- create_project rejects a duplicate name
    intro name description hname hdesc hlim ⟨p, hpmem, hlow⟩
    have hany : (σ.projects.any (fun q => pyLower q.name == pyLower name)) = true := by
      rw [List.any_eq_true]
      exact ⟨p, hpmem, by simp [hlow]⟩
    refine ⟨"A project with this name already exists.", ?_⟩
    unfold createProject
    simp only [hname, hdesc, bind, Except.bind, pure, Except.pure, Storage.listProjects]
    rw [if_neg (by omega), if_pos hany]
  · -- update_project rejects a duplicate name on another project
    intro projectId name description p hp hname hdesc ⟨q, hq, hqid, hlow⟩
    have hany : (σ.projects.any
        (fun r => r.id != projectId && (pyLower r.name == pyLower name))) = true := by
      rw [List.any_eq_true]
      exact ⟨q, hq, by simp [hqid, hlow]⟩
    refine ⟨"Another project with this name already exists.", ?_⟩
    unfold updateProject
    simp only [hp, hname, hdesc, bind, Except.bind, pure, Except.pure,
      Storage.listProjects]
    rw [if_pos hany]
  · -- create_task rejects a duplicate title in the project
    intro projectId title description status deadline project hp htitle hdesc hst
      hcount ⟨x, hx, hlow⟩
    have hany : (project.tasks.any
        (fun t => pyLower t.title == pyLower title)) = true := by
      rw [List.any_eq_true]
      exact ⟨x, hx, by simp [hlow]⟩
    refine ⟨"A task with this title already exists in this project.", ?_⟩
    unfold createTask
    simp only [hp, htitle, hdesc, hst, bind, Except.bind, pure, Except.pure,
      Storage.listProjects, Project.listAllTasks, Project.getTaskCount,
      Bool.not_true, Bool.false_eq_true, if_false]
    have hcount2 : project.tasks.length < cfg.maxTasksPerProject := hcount
    rw [if_neg (by omega), if_pos hany]
  · -- update_task rejects a duplicate title on another task
    intro projectId taskId s description status deadline p task hp hget hvs
      ⟨x, hx, hxid, hlow⟩
    have hany : (p.tasks.any
        (fun t => t.id != taskId && (pyLower t.title == pyLower s))) = true := by
      rw [List.any_eq_true]
      exact ⟨x, hx, by simp [hxid, hlow]⟩
    refine ⟨"Another task with this title already exists in this project.", ?_⟩
    unfold serviceUpdateTask svcStepTitle
    simp only [hp, hget, hvs, bind, Except.bind, pure, Except.pure,
      Project.listAllTasks]
    rw [if_pos hany]

/-! Concrete witnesses -/

def witStorage1 : Storage :=
  ⟨[⟨1, "P1", "", 0, [⟨1, "T1", "", "doing", some 4, 0, none⟩,
                      ⟨2, "T2", "", "todo", some 9, 0, none⟩]⟩,
    ⟨2, "P2", "", 0, []⟩], 3, 3⟩

theorem autoclose_overdue_spec_witness :
    ((witStorage1.projects.map Project.id).Nodup) ∧ AutocloseSpec witStorage1 5 :=
  ⟨by decide, autoclose_overdue_spec witStorage1 5 (by decide)⟩

def witStorage2 : Storage :=
  ⟨[⟨1, "Q1", "", 0, [⟨1, "U1", "", "todo", some 2, 0, none⟩]⟩], 2, 2⟩

theorem autoclose_idempotent_witness :
    ((witStorage2.projects.map Project.id).Nodup) ∧
    autocloseOverdueTasks (autocloseOverdueTasks witStorage2 5).1 5
      = ((autocloseOverdueTasks witStorage2 5).1, 0, []) :=
  ⟨by decide, autoclose_idempotent witStorage2 5 (by decide)⟩

def witStorage6 : Storage := ⟨[⟨1, "P", "", 0, []⟩], 2, 1⟩

theorem create_project_at_limit_witness :
    validateProjectName "New" = .ok () ∧
    validateProjectDescription "" = .ok () ∧
    witStorage6.listProjects.length ≥ (⟨1, 20⟩ : Config).maxProjects ∧
    ((∃ msg, createProject ⟨1, 20⟩ 0 witStorage6 "New" ""
        = .error (.limitExceeded msg)) ∧
     storageAfter witStorage6 (createProject ⟨1, 20⟩ 0 witStorage6 "New" "")
       = witStorage6 ∧
     (storageAfter witStorage6 (createProject ⟨1, 20⟩ 0 witStorage6 "New" "")).projects
       = witStorage6.projects) :=
  ⟨by rfl, by rfl, by decide,
   create_project_at_limit ⟨1, 20⟩ 0 witStorage6 "New" "" (by rfl) (by rfl)
     (by decide)⟩

def witStorage7 : Storage :=
  ⟨[⟨1, "alpha", "", 0, [⟨1, "t1", "", "todo", none, 0, none⟩,
                         ⟨2, "t2", "", "doing", none, 0, none⟩]⟩,
    ⟨2, "beta", "", 0, []⟩], 3, 3⟩

theorem unique_invariant_preserved_witness :
    UniqueInv witStorage7 ∧ IdInv witStorage7 ∧
    (∃ msg, createProject ⟨5, 20⟩ 0 witStorage7 "Alpha" ""
      = .error (.duplicate msg)) ∧
    (∃ msg, updateProject witStorage7 2 "ALPHA" ""
      = .error (.duplicate msg)) ∧
    (∃ msg, createTask ⟨5, 20⟩ 0 witStorage7 1 "T1" "" "todo" none
      = .error (.duplicate msg)) ∧
    (∃ msg, serviceUpdateTask witStorage7 1 2 (some "T1") none none none
      = .error (.duplicate msg)) :=
  ⟨by unfold UniqueInv NamesUniqueCI TitlesUniqueCI; decide,
   by unfold IdInv; decide,
   (unique_invariant_preserved ⟨5, 20⟩ 0 witStorage7
      (by unfold UniqueInv NamesUniqueCI TitlesUniqueCI; decide)
      (by unfold IdInv; decide)).2.2.2.2.1
     "Alpha" "" (by rfl) (by rfl) (by decide)
     ⟨⟨1, "alpha", "", 0, [⟨1, "t1", "", "todo", none, 0, none⟩,
                           ⟨2, "t2", "", "doing", none, 0, none⟩]⟩,
      by decide, by decide⟩,
   (unique_invariant_preserved ⟨5, 20⟩ 0 witStorage7
      (by unfold UniqueInv NamesUniqueCI TitlesUniqueCI; decide)
      (by unfold IdInv; decide)).2.2.2.2.2.1
     2 "ALPHA" "" ⟨2, "beta", "", 0, []⟩ (by rfl) (by rfl) (by rfl)
     ⟨⟨1, "alpha", "", 0, [⟨1, "t1", "", "todo", none, 0, none⟩,
                           ⟨2, "t2", "", "doing", none, 0, none⟩]⟩,
      by decide, by decide, by decide⟩,
   (unique_invariant_preserved ⟨5, 20⟩ 0 witStorage7
      (by unfold UniqueInv NamesUniqueCI TitlesUniqueCI; decide)
      (by unfold IdInv; decide)).2.2.2.2.2.2.1
     1 "T1" "" "todo" none
     ⟨1, "alpha", "", 0, [⟨1, "t1", "", "todo", none, 0, none⟩,
                          ⟨2, "t2", "", "doing", none, 0, none⟩]⟩
     (by rfl) (by rfl) (by rfl) (by decide) (by decide)
     ⟨⟨1, "t1", "", "todo", none, 0, none⟩, by decide, by decide⟩,
   (unique_invariant_preserved ⟨5, 20⟩ 0 witStorage7
      (by unfold UniqueInv NamesUniqueCI TitlesUniqueCI; decide)
      (by unfold IdInv; decide)).2.2.2.2.2.2.2
     1 2 "T1" none none none
     ⟨1, "alpha", "", 0, [⟨1, "t1", "", "todo", none, 0, none⟩,
                          ⟨2, "t2", "", "doing", none, 0, none⟩]⟩
     ⟨2, "t2", "", "doing", none, 0, none⟩
     (by rfl) (by rfl) (by rfl)
     ⟨⟨1, "t1", "", "todo", none, 0, none⟩, by decide, by decide, by decide⟩⟩

def witOps : List MemOp :=
  [MemOp.addProject "A" "", MemOp.addProject "B" "", MemOp.deleteProject 2]

theorem ids_monotone_per_backend_witness :
    (memRun ⟨5, 20⟩ 0 witOps ⟨[], 1, 1⟩).2.1.Pairwise (· < ·) ∧
    (∀ i ∈ (memRun ⟨5, 20⟩ 0 witOps ⟨[], 1, 1⟩).2.1,
      i < (⟨3, "C", "", 0, []⟩ : Project).id) ∧
    (∀ r ∈ (⟨[⟨1, "A", "", 0⟩], []⟩ : DB).projects,
      r.id < sqlGetNextProjectId ⟨[⟨1, "A", "", 0⟩], []⟩) :=
  ⟨(ids_monotone_per_backend.1 ⟨5, 20⟩ 0 witOps ⟨[], 1, 1⟩).1,
   (ids_monotone_per_backend.1 ⟨5, 20⟩ 0 witOps ⟨[], 1, 1⟩).2.2.1 "C" ""
     ⟨3, "C", "", 0, []⟩
     ⟨[⟨1, "A", "", 0, []⟩, ⟨3, "C", "", 0, []⟩], 4, 1⟩ (by rfl),
   (ids_monotone_per_backend.2 ⟨[⟨1, "A", "", 0⟩], []⟩).1⟩

def witStorage9 : Storage :=
  ⟨[⟨1, "R", "", 0, [⟨1, "s1", "", "todo", none, 0, none⟩]⟩], 2, 2⟩

theorem update_task_status_frame_witness :
    witStorage9.getProject 1
      = .ok ⟨1, "R", "", 0, [⟨1, "s1", "", "todo", none, 0, none⟩]⟩ ∧
    (⟨1, "R", "", 0, [⟨1, "s1", "", "todo", none, 0, none⟩]⟩ : Project).getTask 1
      = some ⟨1, "s1", "", "todo", none, 0, none⟩ ∧
    statusValues.contains "done" = true ∧
    UpdateStatusFrame witStorage9 1 1 "done"
      ⟨1, "R", "", 0, [⟨1, "s1", "", "todo", none, 0, none⟩]⟩
      ⟨1, "s1", "", "todo", none, 0, none⟩ :=
  ⟨by rfl, by rfl, by decide,
   update_task_status_frame witStorage9 1 1 "done"
     ⟨1, "R", "", 0, [⟨1, "s1", "", "todo", none, 0, none⟩]⟩
     ⟨1, "s1", "", "todo", none, 0, none⟩ (by rfl) (by rfl) (by decide)⟩

def witProject10 : Project :=
  ⟨1, "G", "", 0,
   [⟨1, "a", "", "todo", none, 0, none⟩, ⟨2, "b", "", "done", none, 0, none⟩,
    ⟨3, "c", "", "doing", none, 0, none⟩, ⟨4, "d", "", "todo", none, 0, none⟩]⟩

theorem status_invariant_and_grouping_witness :
    (∀ t ∈ witProject10.tasks, t.status ∈ statusValues) ∧
    witProject10.getTasksByStatus = some (statusPartition witProject10.tasks) :=
  ⟨by decide, status_invariant_and_grouping.2.2.2.2 witProject10 (by decide)⟩

end ToDoList
